import Mathlib

/-!
A verification development for the `pw-twin-tools` repository
(`src/app/monitor.py`, `src/app/models.py`, `src/app/app.py`).

The Python code is shallowly embedded: pure helpers become Lean functions
over `String` / `List Char` / `ℤ` / `ℚ`; the stateful monitor methods
become explicit state-passing functions over a record modelling the
database tables and the `is_checking` flag, parameterised by an oracle
that supplies the outcome of the browser/network interactions (the only
non-deterministic inputs).  Machine floats in the source are modelled by
exact rationals; Python `round` (banker's rounding) is modelled exactly.
-/

namespace PW

/-! ### Python helpers -/

/-- Whitespace accepted by Python `int(...)` around a numeral. -/
def isPyWs (c : Char) : Bool :=
  c = ' ' ∨ c = '\t' ∨ c = '\n' ∨ c = '\r'

/-- Value of a nonempty all-digit character list, most significant first;
`none` if empty or a non-digit occurs (Python `int` raising `ValueError`). -/
def digitsVal (l : List Char) : Option ℕ :=
  if l ≠ [] ∧ l.all Char.isDigit then
    some (l.foldl (fun acc c => acc * 10 + (c.toNat - 48)) 0)
  else none

/-- Strip Python-`int` whitespace from both ends of a character list. -/
def trimWs (l : List Char) : List Char :=
  ((l.dropWhile isPyWs).reverse.dropWhile isPyWs).reverse

/-- Models Python `int(s)` on a character list: optional surrounding
whitespace, an optional sign, then decimal digits.  Returns `none` where
Python raises `ValueError`.  (Underscore digit separators, which never
occur in the scraped progress strings, are not modelled.) -/
def pyParseIntL (l : List Char) : Option ℤ :=
  if (trimWs l).head? = some '-' then
    Option.map (fun n : ℕ => -(n : ℤ)) (digitsVal (trimWs l).tail)
  else if (trimWs l).head? = some '+' then
    Option.map (fun n : ℕ => (n : ℤ)) (digitsVal (trimWs l).tail)
  else Option.map (fun n : ℕ => (n : ℤ)) (digitsVal (trimWs l))

/-- Models Python `int(s)` on a `String`. -/
def pyParseInt (s : String) : Option ℤ :=
  pyParseIntL s.data

/-- Split a character list at every `'/'`, like Python `str.split('/')`. -/
def splitOnSlash : List Char → List (List Char)
  | [] => [[]]
  | c :: r =>
    if c = '/' then [] :: splitOnSlash r
    else
      match splitOnSlash r with
      | [] => [[c]]
      | p :: ps => (c :: p) :: ps

/-- `monitor.py` `MarathonMonitor.parse_progress` (lines 278-293), over a
character list: `x, y = map(int, progress_str.split('/'))` then
`(x, y, (x/y)*100)`, with `(0, 1, 0)` on `ValueError` (malformed input or
not exactly two fields) or `ZeroDivisionError` (`y == 0`). -/
def parseProgressL (l : List Char) : ℤ × ℤ × ℚ :=
  match splitOnSlash l with
  | [a, b] =>
    match pyParseIntL a, pyParseIntL b with
    | some x, some y => if y = 0 then (0, 1, 0) else (x, y, (x / y : ℚ) * 100)
    | _, _ => (0, 1, 0)
  | _ => (0, 1, 0)

/-- `monitor.py` `MarathonMonitor.parse_progress` on a `String`. -/
def parse_progress (s : String) : ℤ × ℤ × ℚ :=
  parseProgressL s.data

/-! #### Facts about the numeral parser -/

theorem digitsVal_isDigit {l : List Char} {n : ℕ} (h : digitsVal l = some n) :
    ∀ c ∈ l, c.isDigit := by
  unfold digitsVal at h
  split at h
  · rename_i hcond
    intro c hc
    exact List.all_eq_true.mp hcond.2 c hc
  · exact absurd h (by simp)

theorem mem_dropWhile {p : Char → Bool} {l : List Char} {c : Char}
    (hc : c ∈ l) (hp : p c = false) : c ∈ l.dropWhile p := by
  induction l with
  | nil => cases hc
  | cons a r ih =>
    rcases List.mem_cons.mp hc with hc | hc
    · subst hc
      rw [List.dropWhile_cons, if_neg (by simp [hp])]
      exact List.mem_cons_self _ _
    · rw [List.dropWhile_cons]
      split
      · exact ih hc
      · exact List.mem_cons_of_mem _ hc

theorem mem_trimWs {l : List Char} {c : Char}
    (hc : c ∈ l) (hp : isPyWs c = false) : c ∈ trimWs l := by
  unfold trimWs
  rw [List.mem_reverse]
  exact mem_dropWhile (by rw [List.mem_reverse]; exact mem_dropWhile hc hp) hp

/-- A successfully parsed numeral contains no `'/'`. -/
theorem pyParseIntL_no_slash {l : List Char} {x : ℤ}
    (h : pyParseIntL l = some x) : '/' ∉ l := by
  intro hmem
  have hslash : ('/' : Char) ∈ trimWs l := mem_trimWs hmem (by decide)
  unfold pyParseIntL at h
  split at h
  · rename_i hhead
    obtain ⟨t', ht'⟩ : ∃ t', trimWs l = '-' :: t' := by
      cases htw : trimWs l <;> simp_all
    rw [ht'] at hslash h
    rcases Option.map_eq_some'.mp h with ⟨m, hm, _⟩
    rcases List.mem_cons.mp hslash with hs | hs
    · simp at hs
    · have := digitsVal_isDigit hm _ hs
      simp at this
  · split at h
    · rename_i hhead
      obtain ⟨t', ht'⟩ : ∃ t', trimWs l = '+' :: t' := by
        cases htw : trimWs l <;> simp_all
      rw [ht'] at hslash h
      rcases Option.map_eq_some'.mp h with ⟨m, hm, _⟩
      rcases List.mem_cons.mp hslash with hs | hs
      · simp at hs
      · have := digitsVal_isDigit hm _ hs
        simp at this
    · rcases Option.map_eq_some'.mp h with ⟨m, hm, _⟩
      have := digitsVal_isDigit hm _ hslash
      simp at this

/-- Splitting a concatenation whose left part is slash-free. -/
theorem splitOnSlash_append {a : List Char} (b : List Char)
    (ha : '/' ∉ a) : splitOnSlash (a ++ '/' :: b) = a :: splitOnSlash b := by
  induction a with
  | nil => simp [splitOnSlash]
  | cons c r ih =>
    have hc : c ≠ '/' := fun h => ha (h ▸ List.mem_cons_self c r)
    have hr : '/' ∉ r := fun h => ha (List.mem_cons_of_mem _ h)
    rw [List.cons_append]
    simp only [splitOnSlash, if_neg hc]
    rw [ih hr]

theorem splitOnSlash_no_slash {a : List Char} (ha : '/' ∉ a) :
    splitOnSlash a = [a] := by
  induction a with
  | nil => rfl
  | cons c r ih =>
    have hc : c ≠ '/' := fun h => ha (h ▸ List.mem_cons_self c r)
    have hr : '/' ∉ r := fun h => ha (List.mem_cons_of_mem _ h)
    simp only [splitOnSlash, if_neg hc, ih hr]

/-- On a well-formed `a/b` input, `parse_progress` parses both fields. -/
theorem parseProgressL_valid {la lb : List Char} {a b : ℤ}
    (ha : pyParseIntL la = some a) (hb : pyParseIntL lb = some b)
    (hb0 : b ≠ 0) :
    parseProgressL (la ++ '/' :: lb) = (a, b, (a / b : ℚ) * 100) := by
  unfold parseProgressL
  rw [splitOnSlash_append lb (pyParseIntL_no_slash ha),
    splitOnSlash_no_slash (pyParseIntL_no_slash hb)]
  simp [ha, hb, hb0]

/-- On an `a/0` input, `parse_progress` hits `ZeroDivisionError` and
falls back. -/
theorem parseProgressL_zero {la lb : List Char} {a : ℤ}
    (ha : pyParseIntL la = some a) (hb : pyParseIntL lb = some 0) :
    parseProgressL (la ++ '/' :: lb) = (0, 1, 0) := by
  unfold parseProgressL
  rw [splitOnSlash_append lb (pyParseIntL_no_slash ha),
    splitOnSlash_no_slash (pyParseIntL_no_slash hb)]
  simp [ha, hb]

/-- Totality: every input either parses as a valid nonzero fraction or
yields the safe fallback; `parse_progress` can never raise. -/
theorem parseProgressL_cases (l : List Char) :
    (∃ x y : ℤ, y ≠ 0 ∧ parseProgressL l = (x, y, (x / y : ℚ) * 100)) ∨
      parseProgressL l = (0, 1, 0) := by
  unfold parseProgressL
  split
  · rename_i a b heq
    cases hx : pyParseIntL a with
    | none => right; simp
    | some x =>
      cases hy : pyParseIntL b with
      | none => right; simp
      | some y =>
        by_cases hy0 : y = 0
        · right; simp [hy0]
        · left; exact ⟨x, y, hy0, by simp [hy0]⟩
  · right; rfl

/-- C4. For every string of the form `a/b` where `a` and `b` are integer
literals (strings accepted by Python `int`) and `b ≠ 0`, `parse_progress`
returns `(a, b, 100·a/b)`; for `b = 0` it returns `(0, 1, 0)`; and on any
input at all it either returns a validly parsed triple with nonzero
denominator or the safe fallback `(0, 1, 0)` — it never raises. -/
theorem c4_parse_progress (sa sb : String) (a b : ℤ)
    (ha : pyParseInt sa = some a) (hb : pyParseInt sb = some b) :
    (b ≠ 0 → parse_progress (sa ++ "/" ++ sb) = (a, b, (a / b : ℚ) * 100)) ∧
    (b = 0 → parse_progress (sa ++ "/" ++ sb) = (0, 1, 0)) ∧
    (∀ s : String,
      (∃ x y : ℤ, y ≠ 0 ∧ parse_progress s = (x, y, (x / y : ℚ) * 100)) ∨
        parse_progress s = (0, 1, 0)) := by
  have hdata : (sa ++ "/" ++ sb).data = sa.data ++ '/' :: sb.data := by
    rw [String.data_append, String.data_append, List.append_assoc]
    rfl
  refine ⟨fun hb0 => ?_, fun hb0 => ?_, fun s => parseProgressL_cases s.data⟩
  · unfold parse_progress
    rw [hdata]
    exact parseProgressL_valid ha hb hb0
  · unfold parse_progress
    rw [hdata]
    exact parseProgressL_zero ha (hb0 ▸ hb)

/-- Witness for C4 at the concrete inputs `"7/20"` and `"3/0"`. -/
theorem c4_parse_progress_witness :
    parse_progress ("7" ++ "/" ++ "20") = (7, 20, (7 / 20 : ℚ) * 100) ∧
      parse_progress ("3" ++ "/" ++ "0") = (0, 1, 0) :=
  ⟨(c4_parse_progress "7" "20" 7 20 (by decide) (by decide)).1 (by decide),
   (c4_parse_progress "3" "0" 3 0 (by decide) (by decide)).2.1 rfl⟩

/-! ### Progress bars and the per-account task diff -/

/-- Python `round(q)` over exact rationals: round half to even.  (The
source computes percentages in floats; the model uses exact rationals,
which agrees on all the decimally-exact values the claims touch.) -/
def pyRound (q : ℚ) : ℤ :=
  let fl := ⌊q⌋
  let fr : ℚ := q - fl
  if fr < 1 / 2 then fl
  else if 1 / 2 < fr then fl + 1
  else if fl % 2 = 0 then fl else fl + 1

/-- `monitor.py` `MarathonMonitor._get_progress_bar` (lines 324-340):
`int(round(percent / 100 * width))` filled cells out of 10.  A negative
repeat count yields the empty string, exactly as `'█' * n` does in
Python. -/
def get_progress_bar (percent : ℚ) : String :=
  let filled_count := pyRound (percent / 100 * 10)
  String.mk (List.replicate filled_count.toNat '█') ++
    String.mk (List.replicate ((10 - filled_count).toNat) '░')

/-- Python `s.endswith(suffix)`, over the character lists (the
`String` primitives are replaced by list operations throughout so that
every definition evaluates). -/
def pyEndsWith (s suffix : String) : Bool :=
  decide (suffix.data = s.data.drop (s.data.length - suffix.data.length))

/-- Python `s[:-n]`: drop the last `n` characters. -/
def pyDropRight (s : String) (n : ℕ) : String :=
  String.mk (s.data.take (s.data.length - n))

/-- Python `dict` as an insertion-ordered association list: assigning to
an existing key updates in place, a new key is appended. -/
def dictInsert {α : Type} (k : String) (v : α) :
    List (String × α) → List (String × α)
  | [] => [(k, v)]
  | (k', v') :: r => if k' = k then (k', v) :: r else (k', v') :: dictInsert k v r

/-- Python `dict` lookup (`d[k]` / `d.get(k)`). -/
def dlookup {α : Type} (k : String) : List (String × α) → Option α
  | [] => none
  | (k', v) :: r => if k' = k then some v else dlookup k r

/-- The scraped fields of one marathon task, as built by
`get_marathon_data` from `parse_progress`. -/
structure TaskScrape where
  name : String
  x : ℤ
  y : ℤ
  percent : ℚ
deriving DecidableEq

/-- `{task['name']: (task['x'], task['y']) for task in tasks}`
(monitor.py line 660). -/
def tasksDict (ts : List TaskScrape) : List (String × ℤ × ℤ) :=
  ts.foldl (fun d t => dictInsert t.name (t.x, t.y) d) []

/-- The formatted delta line for a changed task
(monitor.py lines 666-674). -/
def changeTaskLine (name : String) (cx cy px : ℤ) : String :=
  let progress : ℚ := (cx / cy : ℚ) * 100
  let bar := get_progress_bar progress
  let d := cx - px
  let arrow := if 0 < d then "🔼 +" else ""
  let delta := if d ≠ 0 then toString d else ""
  s!"    {bar} {name}: {cx}/{cy} ({arrow}{delta})"

/-- The formatted line for a task absent from the previous snapshot
(monitor.py lines 675-677). -/
def newTaskLine (name : String) (cx cy : ℤ) : String :=
  let bar := get_progress_bar 0
  s!"    {bar} {name}: {cx}/{cy} (новое)"

/-- The body of the diff loop (monitor.py lines 663-677) for one entry of
`current_tasks`: the emitted line, if any. -/
def taskDiffLine (prev : List (String × ℤ × ℤ)) (e : String × ℤ × ℤ) :
    Option String :=
  match dlookup e.1 prev with
  | some (px, py) =>
    if e.2.1 ≠ px ∨ e.2.2 ≠ py then some (changeTaskLine e.1 e.2.1 e.2.2 px)
    else none
  | none => some (newTaskLine e.1 e.2.1 e.2.2)

/-- The `task_changes` list accumulated by the diff loop. -/
def task_changes (prev cur : List (String × ℤ × ℤ)) : List String :=
  cur.filterMap (taskDiffLine prev)

/-- The diff lines the loop emits for one particular task name. -/
def emittedLinesFor (prev cur : List (String × ℤ × ℤ)) (name : String) :
    List String :=
  (cur.filter (fun e => e.1 = name)).filterMap (taskDiffLine prev)

/-- The zero-percent bar is ten empty cells. -/
theorem get_progress_bar_zero :
    get_progress_bar 0 = String.mk (List.replicate 10 '░') := by
  have h0 : (0 : ℚ) / 100 * 10 = 0 := by norm_num
  have hr : pyRound 0 = 0 := by
    unfold pyRound
    norm_num
  unfold get_progress_bar
  rw [h0, hr]
  rfl

theorem filter_key_singleton {α : Type} {cur : List (String × α)}
    {e : String × α} (hnodup : (cur.map Prod.fst).Nodup) (hmem : e ∈ cur) :
    cur.filter (fun x => x.1 = e.1) = [e] := by
  induction cur with
  | nil => cases hmem
  | cons a r ih =>
    rw [List.map_cons, List.nodup_cons] at hnodup
    rcases List.mem_cons.mp hmem with he | he
    · subst he
      rw [List.filter_cons_of_pos (by simp)]
      have : r.filter (fun x => x.1 = e.1) = [] := by
        apply List.filter_eq_nil_iff.mpr
        intro b hb hkey
        exact hnodup.1 (by
          simp only [decide_eq_true_eq] at hkey
          exact hkey ▸ List.mem_map_of_mem Prod.fst hb)
      rw [this]
    · have hk : a.1 ≠ e.1 := by
        intro hkey
        exact hnodup.1 (hkey ▸ List.mem_map_of_mem Prod.fst he)
      rw [List.filter_cons_of_neg (by simp [hk])]
      exact ih hnodup.2 he

/-- C5. In the per-account diff of `check_all_accounts`, for every task
name in the newly scraped data: if the name is in the previous snapshot, a
change line is emitted iff the `(current, total)` pair differs from the
previous pair (and no line for that name is emitted otherwise); if the
name is absent from the previous snapshot, the line labelled `(новое)`
with a zero-filled ten-cell progress bar is emitted. -/
theorem c5_task_diff (prev cur : List (String × ℤ × ℤ)) (name : String)
    (cx cy : ℤ) (hnodup : (cur.map Prod.fst).Nodup)
    (hmem : (name, cx, cy) ∈ cur) (hcy : cy ≠ 0) :
    (∀ px py, dlookup name prev = some (px, py) →
      (((cx, cy) ≠ (px, py) →
          emittedLinesFor prev cur name = [changeTaskLine name cx cy px] ∧
          changeTaskLine name cx cy px ∈ task_changes prev cur) ∧
       ((cx, cy) = (px, py) → emittedLinesFor prev cur name = []))) ∧
    (dlookup name prev = none →
      emittedLinesFor prev cur name = [newTaskLine name cx cy] ∧
      newTaskLine name cx cy ∈ task_changes prev cur ∧
      get_progress_bar 0 = String.mk (List.replicate 10 '░')) := by
  have hfilter := filter_key_singleton hnodup hmem
  constructor
  · intro px py hlk
    constructor
    · intro hne
      have hor : cx ≠ px ∨ cy ≠ py := by
        by_contra hcon
        push_neg at hcon
        exact hne (by rw [hcon.1, hcon.2])
      have hline : taskDiffLine prev (name, cx, cy) =
          some (changeTaskLine name cx cy px) := by
        simp only [taskDiffLine, hlk]
        rw [if_pos hor]
      refine ⟨?_, ?_⟩
      · unfold emittedLinesFor
        rw [hfilter]
        simp [hline]
      · exact List.mem_filterMap.mpr ⟨(name, cx, cy), hmem, hline⟩
    · intro heq
      have h1 : cx = px := congrArg Prod.fst heq
      have h2 : cy = py := congrArg Prod.snd heq
      have hline : taskDiffLine prev (name, cx, cy) = none := by
        simp only [taskDiffLine, hlk]
        rw [if_neg]
        simp [h1, h2]
      unfold emittedLinesFor
      rw [hfilter]
      simp [hline]
  · intro hlk
    have hline : taskDiffLine prev (name, cx, cy) =
        some (newTaskLine name cx cy) := by
      simp only [taskDiffLine, hlk]
    refine ⟨?_, ?_, ?_⟩
    · unfold emittedLinesFor
      rw [hfilter]
      simp [hline]
    · exact List.mem_filterMap.mpr ⟨(name, cx, cy), hmem, hline⟩
    · exact get_progress_bar_zero

/-- Witness for C5: the spec scenario — task `Daily` went from `3/10` to
`5/10`, so its change line is emitted. -/
theorem c5_task_diff_witness :
    emittedLinesFor [("Daily", (3, 10))] [("Daily", (5, 10)), ("Étoile", (0, 8))]
        "Daily" = [changeTaskLine "Daily" 5 10 3] ∧
      changeTaskLine "Daily" 5 10 3 ∈
        task_changes [("Daily", (3, 10))] [("Daily", (5, 10)), ("Étoile", (0, 8))] :=
  ((c5_task_diff [("Daily", (3, 10))] [("Daily", (5, 10)), ("Étoile", (0, 8))]
      "Daily" 5 10 (by decide) (by decide) (by decide)).1 3 10
    (by decide)).1 (by decide)

/-! ### `escape_markdown_v2` (monitor.py lines 191-219) -/

/-- The backtick character. -/
def bq : Char := Char.ofNat 96

/-- The escape set `r'_*[]()~`>#+-=|{}.!'` of `escape_markdown_v2`. -/
def escapeChars : List Char :=
  ['_', '*', '[', ']', '(', ')', '~', Char.ofNat 96, '>', '#', '+', '-', '=',
   '|', Char.ofNat 123, Char.ofNat 125, '.', '!']

/-- One character of the else-branch: escape-set characters get a
backslash prefix, all others pass through. -/
def escChar (c : Char) : List Char :=
  if c ∈ escapeChars then ['\\', c] else [c]

/-- Escape every character of a segment (the claim's "outside a span"
treatment). -/
def escapeAll (l : List Char) : List Char :=
  (l.map escChar).flatten

/-- `text.find('```', i)` as a splitter: the part before the first
` ``` ` occurrence and the part after it, or `none` when absent. -/
def splitAtTriple : List Char → Option (List Char × List Char)
  | a :: b :: c :: r =>
    if a = bq ∧ b = bq ∧ c = bq then some ([], r)
    else Option.map (fun p => (a :: p.1, p.2)) (splitAtTriple (b :: c :: r))
  | _ => none

theorem splitAtTriple_spec :
    ∀ {l pre rest : List Char}, splitAtTriple l = some (pre, rest) →
      l = pre ++ bq :: bq :: bq :: rest := by
  intro l
  induction l with
  | nil => intro pre rest h; simp [splitAtTriple] at h
  | cons a t ih =>
    intro pre rest h
    match t with
    | [] => simp [splitAtTriple] at h
    | [b] => simp [splitAtTriple] at h
    | b :: c :: r =>
      rw [splitAtTriple] at h
      split at h
      · rename_i habc
        obtain ⟨rfl, rfl⟩ : pre = [] ∧ rest = r := by
          simpa using h.symm
        simp [habc.1, habc.2.1, habc.2.2]
      · rcases Option.map_eq_some'.mp h with ⟨p, hp, hpe⟩
        obtain ⟨h1, h2⟩ := Prod.mk.injEq .. |>.mp hpe
        subst h1
        subst h2
        have := ih hp
        simp only [List.cons_append]
        exact congrArg (List.cons a) this

theorem splitAtTriple_length {l pre rest : List Char}
    (h : splitAtTriple l = some (pre, rest)) :
    rest.length + 3 ≤ l.length := by
  have := splitAtTriple_spec h
  subst this
  simp only [List.length_append, List.length_cons]
  omega

/-- `monitor.py` `MarathonMonitor.escape_markdown_v2` (lines 191-219) on a
character list.  The scan walks the input: at a ` ``` ` it looks for the
closing ` ``` `; if found, the span (delimiters included) is copied
verbatim and the scan resumes after it; if not found, the remainder is
copied verbatim (`escaped.append(text[i:]); break`).  Any other character
is escaped per `escChar`. -/
def escapeMd (l : List Char) : List Char :=
  match l with
  | a :: b :: c :: r =>
    if a = bq ∧ b = bq ∧ c = bq then
      match h : splitAtTriple r with
      | none => a :: b :: c :: r
      | some (mid, rest) =>
        bq :: bq :: bq :: (mid ++ bq :: bq :: bq :: escapeMd rest)
    else escChar a ++ escapeMd (b :: c :: r)
  | c :: r => escChar c ++ escapeMd r
  | [] => []
termination_by l.length
decreasing_by
  · have := splitAtTriple_length h
    simp
    omega
  · simp
  · simp

/-- `monitor.py` `MarathonMonitor.escape_markdown_v2` on a `String`. -/
def escape_markdown_v2 (s : String) : String :=
  String.mk (escapeMd s.data)

/-- Reference function following the claim's words strictly: fenced code
spans — text between a pair of ` ``` ` delimiters, the delimiters
included — are copied unchanged, and every character outside such a span
is escaped per the escape set.  In particular an opening ` ``` ` with no
matching close delimits no span, so everything from there on is
"outside" and gets escaped. -/
def escapeSpecStrict (l : List Char) : List Char :=
  match hpre : splitAtTriple l with
  | none => escapeAll l
  | some (pre, rest) =>
    match h : splitAtTriple rest with
    | none => escapeAll l
    | some (mid, rest') =>
      escapeAll pre ++ bq :: bq :: bq :: (mid ++ bq :: bq :: bq :: escapeSpecStrict rest')
termination_by l.length
decreasing_by
  · have h1 := splitAtTriple_length hpre
    have h2 := splitAtTriple_length h
    omega

/-- Reference function for the amended claim: as `escapeSpecStrict`, but
an opening ` ``` ` with no matching close is copied unchanged together
with the whole remainder of the input. -/
def escapeSpecAmended (l : List Char) : List Char :=
  match hpre : splitAtTriple l with
  | none => escapeAll l
  | some (pre, rest) =>
    match h : splitAtTriple rest with
    | none => escapeAll pre ++ bq :: bq :: bq :: rest
    | some (mid, rest') =>
      escapeAll pre ++ bq :: bq :: bq :: (mid ++ bq :: bq :: bq :: escapeSpecAmended rest')
termination_by l.length
decreasing_by
  · have h1 := splitAtTriple_length hpre
    have h2 := splitAtTriple_length h
    omega

/-! #### Equation lemmas for the escape scan -/

theorem escapeAll_cons (c : Char) (r : List Char) :
    escapeAll (c :: r) = escChar c ++ escapeAll r := by
  simp [escapeAll]

theorem escapeMd_nil : escapeMd [] = [] := by
  simp [escapeMd]

theorem escapeMd_one (c : Char) : escapeMd [c] = escChar c := by
  simp [escapeMd, escapeMd_nil]

theorem escapeMd_two (c d : Char) :
    escapeMd [c, d] = escChar c ++ escChar d := by
  simp [escapeMd, escapeMd_one]

theorem escapeMd_cons3 {a b c : Char} {r : List Char}
    (h : ¬(a = bq ∧ b = bq ∧ c = bq)) :
    escapeMd (a :: b :: c :: r) = escChar a ++ escapeMd (b :: c :: r) := by
  rw [escapeMd]
  rw [if_neg h]

theorem escapeMd_triple_none {r : List Char} (h : splitAtTriple r = none) :
    escapeMd (bq :: bq :: bq :: r) = bq :: bq :: bq :: r := by
  rw [escapeMd]
  rw [if_pos ⟨rfl, rfl, rfl⟩]
  split
  · rfl
  · rename_i mid rest hsp
    rw [h] at hsp
    cases hsp

theorem escapeMd_triple_some {r mid rest : List Char}
    (h : splitAtTriple r = some (mid, rest)) :
    escapeMd (bq :: bq :: bq :: r) =
      bq :: bq :: bq :: (mid ++ bq :: bq :: bq :: escapeMd rest) := by
  rw [escapeMd]
  rw [if_pos ⟨rfl, rfl, rfl⟩]
  split
  · rename_i hsp
    rw [h] at hsp
    cases hsp
  · rename_i mid' rest' hsp
    rw [h] at hsp
    obtain ⟨rfl, rfl⟩ : mid = mid' ∧ rest = rest' := by simpa using hsp
    rfl

theorem escapeSpecAmended_none {l : List Char} (h : splitAtTriple l = none) :
    escapeSpecAmended l = escapeAll l := by
  rw [escapeSpecAmended]
  split
  · rfl
  · rename_i pre rest hsp
    rw [h] at hsp
    cases hsp

theorem escapeSpecAmended_some_none {l pre rest : List Char}
    (h1 : splitAtTriple l = some (pre, rest))
    (h2 : splitAtTriple rest = none) :
    escapeSpecAmended l = escapeAll pre ++ bq :: bq :: bq :: rest := by
  rw [escapeSpecAmended]
  split
  · rename_i hsp
    rw [h1] at hsp
    cases hsp
  · rename_i pre' rest' hsp
    rw [h1] at hsp
    obtain ⟨rfl, rfl⟩ : pre = pre' ∧ rest = rest' := by simpa using hsp
    split
    · rfl
    · rename_i mid rest' hsp2
      rw [h2] at hsp2
      cases hsp2

theorem escapeSpecAmended_some_some {l pre rest mid rest' : List Char}
    (h1 : splitAtTriple l = some (pre, rest))
    (h2 : splitAtTriple rest = some (mid, rest')) :
    escapeSpecAmended l =
      escapeAll pre ++ bq :: bq :: bq ::
        (mid ++ bq :: bq :: bq :: escapeSpecAmended rest') := by
  rw [escapeSpecAmended]
  split
  · rename_i hsp
    rw [h1] at hsp
    cases hsp
  · rename_i pre0 rest0 hsp
    rw [h1] at hsp
    obtain ⟨rfl, rfl⟩ : pre = pre0 ∧ rest = rest0 := by simpa using hsp
    split
    · rename_i hsp2
      rw [h2] at hsp2
      cases hsp2
    · rename_i mid0 rest0' hsp2
      rw [h2] at hsp2
      obtain ⟨rfl, rfl⟩ : mid = mid0 ∧ rest' = rest0' := by simpa using hsp2
      rfl

theorem escapeSpecStrict_none {l : List Char} (h : splitAtTriple l = none) :
    escapeSpecStrict l = escapeAll l := by
  rw [escapeSpecStrict]
  split
  · rfl
  · rename_i pre rest hsp
    rw [h] at hsp
    cases hsp

theorem escapeSpecStrict_some_none {l pre rest : List Char}
    (h1 : splitAtTriple l = some (pre, rest))
    (h2 : splitAtTriple rest = none) :
    escapeSpecStrict l = escapeAll l := by
  rw [escapeSpecStrict]
  split
  · rfl
  · rename_i pre' rest' hsp
    rw [h1] at hsp
    obtain ⟨rfl, rfl⟩ : pre = pre' ∧ rest = rest' := by simpa using hsp
    split
    · rfl
    · rename_i mid rest' hsp2
      rw [h2] at hsp2
      cases hsp2

/-- The scan escapes everything when no ` ``` ` occurs. -/
theorem escapeMd_of_none :
    ∀ {l : List Char}, splitAtTriple l = none → escapeMd l = escapeAll l := by
  intro l
  induction l with
  | nil => intro _; rw [escapeMd_nil]; rfl
  | cons a t ih =>
    intro h
    match t with
    | [] => rw [escapeMd_one]; simp [escapeAll]
    | [b] => rw [escapeMd_two]; simp [escapeAll]
    | b :: c :: r =>
      have hcond : ¬(a = bq ∧ b = bq ∧ c = bq) := by
        intro hc
        rw [splitAtTriple, if_pos hc] at h
        cases h
      have ht : splitAtTriple (b :: c :: r) = none := by
        rw [splitAtTriple, if_neg hcond] at h
        cases hsp : splitAtTriple (b :: c :: r) with
        | none => rfl
        | some p => rw [hsp] at h; cases h
      rw [escapeMd_cons3 hcond, ih ht]
      exact (escapeAll_cons a (b :: c :: r)).symm

/-- Up to the first ` ``` `, the scan escapes character by character. -/
theorem escapeMd_split :
    ∀ {l pre rest : List Char}, splitAtTriple l = some (pre, rest) →
      escapeMd l = escapeAll pre ++ escapeMd (bq :: bq :: bq :: rest) := by
  intro l
  induction l with
  | nil => intro pre rest h; simp [splitAtTriple] at h
  | cons a t ih =>
    intro pre rest h
    match t with
    | [] => simp [splitAtTriple] at h
    | [b] => simp [splitAtTriple] at h
    | b :: c :: r =>
      rw [splitAtTriple] at h
      split at h
      · rename_i habc
        obtain ⟨rfl, rfl⟩ : pre = [] ∧ rest = r := by simpa using h.symm
        obtain ⟨rfl, rfl, rfl⟩ := habc
        rfl
      · rename_i habc
        rcases Option.map_eq_some'.mp h with ⟨p, hp, hpe⟩
        obtain ⟨h1, h2⟩ := Prod.mk.injEq .. |>.mp hpe
        subst h1
        subst h2
        rw [escapeMd_cons3 habc, ih hp, escapeAll_cons, List.append_assoc]

/-- C9 (amended): `escape_markdown_v2` escapes all special characters
outside fenced code spans, copies paired spans verbatim (delimiters
included), and copies an unmatched opening delimiter together with the
whole remainder verbatim. -/
theorem c9_escape_markdown_v2_amended (s : String) :
    escape_markdown_v2 s = String.mk (escapeSpecAmended s.data) := by
  unfold escape_markdown_v2
  congr 1
  generalize s.data = l
  generalize hn : l.length = n
  induction n using Nat.strong_induction_on generalizing l with
  | _ n ih =>
    subst hn
    cases hsp : splitAtTriple l with
    | none => rw [escapeMd_of_none hsp, escapeSpecAmended_none hsp]
    | some pr =>
      obtain ⟨pre, rest⟩ := pr
      rw [escapeMd_split hsp]
      cases hsp2 : splitAtTriple rest with
      | none =>
        rw [escapeMd_triple_none hsp2, escapeSpecAmended_some_none hsp hsp2]
      | some pr2 =>
        obtain ⟨mid, rest'⟩ := pr2
        rw [escapeMd_triple_some hsp2, escapeSpecAmended_some_some hsp hsp2]
        have hlen : rest'.length < l.length := by
          have g1 := splitAtTriple_length hsp
          have g2 := splitAtTriple_length hsp2
          omega
        rw [ih rest'.length hlen rest' rfl]

/-- C9 counterexample: on the input `"```."` — an unmatched opening
fence — the code copies the tail unchanged, whereas the claim (every
character outside a fenced code span gets a backslash) demands that the
backticks and the dot be escaped. -/
theorem c9_escape_markdown_v2_counterexample :
    escape_markdown_v2 "```." ≠ String.mk (escapeSpecStrict "```.".data) ∧
      escape_markdown_v2 "```." = "```." := by
  have hval : escape_markdown_v2 "```." = "```." := by
    rw [c9_escape_markdown_v2_amended]
    have h1 : splitAtTriple "```.".data = some ([], ['.']) := by decide
    have h2 : splitAtTriple ['.'] = none := by decide
    rw [escapeSpecAmended_some_none h1 h2]
    rfl
  refine ⟨?_, hval⟩
  rw [hval]
  have h1 : splitAtTriple "```.".data = some ([], ['.']) := by decide
  have h2 : splitAtTriple ['.'] = none := by decide
  rw [escapeSpecStrict_some_none h1 h2]
  intro hcon
  have : "```.".data = escapeAll "```.".data := congrArg String.data hcon
  revert this
  decide

/-! ### `activate_promo_code` (monitor.py lines 703-774) -/

/-- Outcome of one account's activation attempt, as classified from the
result page (`m_error` div text).  `raised` models an exception before
the browser session is created (e.g. the cookie file fails to load);
exceptions are caught per account and only counted. -/
inductive PromoOutcome where
  | alreadyActivated
  | invalidCode
  | expiredCode
  | otherError
  | activationOk
  | raised (msg : String)
deriving DecidableEq

/-- Observable state threaded through `activate_promo_code`: the local
`global_promo_status`, the two counters, the rows written through
`save_account_promo_code` (username, code, status, message) and
`save_promo_code_status` (code, status), and which usernames had a
browser session opened (`get_driver`). -/
structure PromoState where
  status : String
  activated : ℕ
  errors : ℕ
  promoWrites : List (String × String × String × Option String)
  codeStatusWrites : List (String × String)
  sessions : List String
deriving DecidableEq

def initPromoState : PromoState :=
  { status := "active", activated := 0, errors := 0, promoWrites := [],
    codeStatusWrites := [], sessions := [] }

/-- One iteration of the `for username in accounts` loop of
`activate_promo_code`. -/
def promoStep (oracle : String → PromoOutcome) (promo_code : String)
    (st : PromoState) (username : String) : PromoState :=
  if st.status ≠ "active" then
    { st with
      promoWrites := st.promoWrites ++
        [(username, promo_code, "failed", some "promo_expired")]
      errors := st.errors + 1 }
  else
    match oracle username with
    | .raised _ => { st with errors := st.errors + 1 }
    | .alreadyActivated =>
      { st with
        sessions := st.sessions ++ [username]
        promoWrites := st.promoWrites ++
          [(username, promo_code, "already_activated", none)]
        activated := st.activated + 1 }
    | .invalidCode =>
      { st with
        sessions := st.sessions ++ [username]
        codeStatusWrites := st.codeStatusWrites ++ [(promo_code, "invalid")]
        status := "invalid"
        errors := st.errors + 1 }
    | .expiredCode =>
      { st with
        sessions := st.sessions ++ [username]
        codeStatusWrites := st.codeStatusWrites ++ [(promo_code, "expired")]
        status := "expired"
        errors := st.errors + 1 }
    | .otherError =>
      { st with
        sessions := st.sessions ++ [username]
        errors := st.errors + 1 }
    | .activationOk =>
      { st with
        sessions := st.sessions ++ [username]
        promoWrites := st.promoWrites ++
          [(username, promo_code, "success", none)]
        activated := st.activated + 1 }

/-- The loop of `activate_promo_code` over the account list. -/
def runPromo (oracle : String → PromoOutcome) (promo_code : String)
    (accounts : List String) (st : PromoState) : PromoState :=
  accounts.foldl (promoStep oracle promo_code) st

/-- `monitor.py` `MarathonMonitor.activate_promo_code`: returns the
`{'activated': …, 'errors': …}` dictionary. -/
def activate_promo_code (oracle : String → PromoOutcome)
    (promo_code : String) (accounts : List String) : ℕ × ℕ :=
  let st := runPromo oracle promo_code accounts initPromoState
  (st.activated, st.errors)

theorem runPromo_append (oracle : String → PromoOutcome) (code : String)
    (a b : List String) (st : PromoState) :
    runPromo oracle code (a ++ b) st = runPromo oracle code b (runPromo oracle code a st) :=
  List.foldl_append ..

theorem runPromo_inactive (oracle : String → PromoOutcome) (code : String) :
    ∀ (post : List String) (st : PromoState), st.status ≠ "active" →
      runPromo oracle code post st =
        { st with
          promoWrites := st.promoWrites ++
            post.map (fun u => (u, code, "failed", some "promo_expired"))
          errors := st.errors + post.length } := by
  intro post
  induction post with
  | nil => intro st h; simp [runPromo]
  | cons u rest ih =>
    intro st h
    have hstep : promoStep oracle code st u =
        { st with
          promoWrites := st.promoWrites ++
            [(u, code, "failed", some "promo_expired")]
          errors := st.errors + 1 } := by
      unfold promoStep
      rw [if_pos h]
    have hrun : runPromo oracle code (u :: rest) st =
        runPromo oracle code rest (promoStep oracle code st u) := rfl
    rw [hrun, hstep, ih _ (by simpa using h)]
    simp [List.append_assoc]
    omega

/-- C6. In `activate_promo_code`, once one account's attempt classifies
the code as invalid or expired (so `global_promo_status ≠ 'active'`),
every subsequent account of the batch is recorded with a `failed`
activation (message `promo_expired`) and counted as an error, with no
browser session opened and no activation attempted for it. -/
theorem c6_promo_short_circuit (oracle : String → PromoOutcome)
    (code : String) (pre post : List String)
    (h : (runPromo oracle code pre initPromoState).status ≠ "active") :
    (runPromo oracle code (pre ++ post) initPromoState).promoWrites =
      (runPromo oracle code pre initPromoState).promoWrites ++
        post.map (fun u => (u, code, "failed", some "promo_expired")) ∧
    (runPromo oracle code (pre ++ post) initPromoState).errors =
      (runPromo oracle code pre initPromoState).errors + post.length ∧
    (runPromo oracle code (pre ++ post) initPromoState).activated =
      (runPromo oracle code pre initPromoState).activated ∧
    (runPromo oracle code (pre ++ post) initPromoState).sessions =
      (runPromo oracle code pre initPromoState).sessions := by
  rw [runPromo_append, runPromo_inactive oracle code post _ h]
  exact ⟨rfl, rfl, rfl, rfl⟩

/-- Scripted page outcomes for the C6 witness scenario: account `B`
sees the expired-code page, everyone else would succeed. -/
def promoOracleB (u : String) : PromoOutcome :=
  if u = "B" then PromoOutcome.expiredCode else PromoOutcome.activationOk

/-- Witness for C6: the spec scenario — a 3-account batch where account
`B`'s attempt classifies the code as expired; accounts 2 and 3 are
recorded failed, counted as errors, and no browser session is opened for
them. -/
theorem c6_promo_short_circuit_witness :
    (runPromo promoOracleB "K1" (["B"] ++ ["u2", "u3"]) initPromoState).promoWrites =
      (runPromo promoOracleB "K1" ["B"] initPromoState).promoWrites ++
        [("u2", "K1", "failed", some "promo_expired"),
         ("u3", "K1", "failed", some "promo_expired")] ∧
    (runPromo promoOracleB "K1" (["B"] ++ ["u2", "u3"]) initPromoState).errors =
      (runPromo promoOracleB "K1" ["B"] initPromoState).errors + 2 ∧
    (runPromo promoOracleB "K1" (["B"] ++ ["u2", "u3"]) initPromoState).activated =
      (runPromo promoOracleB "K1" ["B"] initPromoState).activated ∧
    (runPromo promoOracleB "K1" (["B"] ++ ["u2", "u3"]) initPromoState).sessions =
      (runPromo promoOracleB "K1" ["B"] initPromoState).sessions := by
  have := c6_promo_short_circuit promoOracleB "K1" ["B"] ["u2", "u3"]
    (by decide)
  simpa using this

/-! ### Database model (`models.py`)

The PostgreSQL tables of `_init_db` become lists of row records; each
`Database` method that a claim touches becomes a function on this state.
Only the success path of each method is modelled (the Python methods
catch their own database errors); each method body runs inside a single
`with conn` transaction in the source. -/

/-- A row of `accounts` (models.py lines 38-49).  `use_promo` and
`transfer_to_game` are nullable in practice because the code inserts
explicit `None` values past the column defaults. -/
structure AccountRow where
  username : String
  «alias» : Option String
  group_id : Option ℕ
  last_success : Option ℕ
  server : Option String
  use_promo : Option Bool
  transfer_to_game : Option Bool
  mdm_coins : Option String
deriving DecidableEq

/-- A row of `tasks` (append-only progress history). -/
structure TaskRow where
  username : String
  task_name : String
  current : ℤ
  total : ℤ
  percent : ℚ
  timestamp : ℕ
deriving DecidableEq

/-- A row of `account_characters`. -/
structure CharRow where
  username : String
  server : String
  character_name : String
  class_name : Option String
  level : Option ℤ
deriving DecidableEq

/-- A row of `account_gifts`. -/
structure GiftRow where
  username : String
  gift_name : String
  expires : String
deriving DecidableEq

/-- The database state: the tables the claims touch.  Row order models
insertion order (`SERIAL` ids / insertion time). -/
structure DBState where
  groups : List (ℕ × String)
  accounts : List AccountRow
  tasks : List TaskRow
  characters : List CharRow
  gifts : List GiftRow
deriving DecidableEq

/-- An account row freshly created by `INSERT INTO accounts (username)`
(all other columns NULL / default). -/
def freshAccount (username : String) : AccountRow :=
  { username := username
    «alias» := none
    group_id := none
    last_success := none
    server := none
    use_promo := none
    transfer_to_game := none
    mdm_coins := none }

def accountExists (db : DBState) (u : String) : Bool :=
  db.accounts.any (fun a => a.username = u)

/-- One scraped character (`parse_character_info` output). -/
structure CharScrape where
  name : String
  className : Option String
  level : Option ℤ
deriving DecidableEq

/-- One scraped soon-expiring gift (`_check_account_gifts` output: name
and the formatted expiry string). -/
structure GiftScrape where
  name : String
  expires : String
deriving DecidableEq

/-- `models.py` `Database.save_account_characters` (lines 327-376):
create the account row if missing, delete the account's old character
rows, insert the scraped ones. -/
def save_account_characters (db : DBState) (username : String)
    (characters_data : List (String × List CharScrape)) : DBState :=
  let accounts' :=
    if accountExists db username then db.accounts
    else db.accounts ++ [freshAccount username]
  let kept := db.characters.filter (fun c => c.username ≠ username)
  let newRows :=
    (characters_data.map (fun p =>
      p.2.map (fun ch =>
        CharRow.mk username p.1 ch.name ch.className ch.level))).flatten
  { db with accounts := accounts', characters := kept ++ newRows }

/-- `models.py` `Database.save_account_data` as called from
`check_account` (only `last_success` and `mdm_coins` are passed): an
upsert that preserves every other column of an existing row. -/
def save_account_data_check (db : DBState) (username : String)
    (now : ℕ) (mdm : String) : DBState :=
  if accountExists db username then
    { db with accounts := db.accounts.map (fun a =>
        if a.username = username then
          { a with last_success := some now, mdm_coins := some mdm }
        else a) }
  else
    { db with accounts := db.accounts ++
        [{ freshAccount username with
            last_success := some now
            mdm_coins := some mdm }] }

/-- The latest stored `(current, total)` pair for a task, as read by
`save_task_data`'s `ORDER BY timestamp DESC LIMIT 1` (row order tracks
insertion time). -/
def latestTaskPair (db : DBState) (u name : String) : Option (ℤ × ℤ) :=
  ((db.tasks.filter (fun r => r.username = u ∧ r.task_name = name)).getLast?).map
    (fun r => (r.current, r.total))

/-- `models.py` `Database.save_task_data` (lines 686-736): no-op when the
account is missing or the latest pair is unchanged; otherwise appends a
new history row. -/
def save_task_data (db : DBState) (username task_name : String)
    (current total : ℤ) (percent : ℚ) (timestamp : ℕ) : DBState :=
  if accountExists db username then
    match latestTaskPair db username task_name with
    | some (c, t) =>
      if c = current ∧ t = total then db
      else { db with tasks := db.tasks ++
        [TaskRow.mk username task_name current total percent timestamp] }
    | none =>
      { db with tasks := db.tasks ++
        [TaskRow.mk username task_name current total percent timestamp] }
  else db

/-! ### `check_account` (monitor.py lines 495-586) -/

/-- The scraping outcome of one account check, supplied by an oracle:
an exception before the browser session opens (`loadError`, e.g. a bad
cookie file — caught and reported as `Ошибка загрузки куков`), a lost
authentication (`Войти` in the page title), or the scraped page data.
Within `page`, empty `chars` models a failed/skipped character
collection and empty `tasks` a failed marathon extraction; `mdm` is the
coin string (`"0"` when its extraction failed) and `gifts` the
soon-expiring gifts. -/
inductive CheckOutcome where
  | loadError (msg : String)
  | authLost
  | page (chars : List (String × List CharScrape)) (tasks : List TaskScrape)
      (mdm : String) (gifts : List GiftScrape)

/-- The dictionary `check_account` returns. -/
structure CheckResult where
  username : String
  status : String
  message : Option String
  mdm_coins : Option String
  tasks : List TaskScrape
  gifts : List GiftScrape
deriving DecidableEq

/-- Observable events of a monitor run: busy-flag assignments, browser
sessions opening, the per-account diff step of the batch loop, the
report phase, and Telegram sends. -/
inductive Ev where
  | setFlag (b : Bool)
  | driverOpen (user : String)
  | diffPhase (user : String)
  | reportPhase
  | send (msg : String)
deriving DecidableEq

/-- Monitor state: the shared `is_checking` flag and the database. -/
structure MonSt where
  is_checking : Bool
  db : DBState
deriving DecidableEq

/-- `monitor.py` `MarathonMonitor.check_account`.  Raises (`Except.error`)
only on the busy guard; every scraping failure is caught internally and
returned as an error dictionary, and the `finally` blocks close the
driver and clear the flag on every path. -/
def check_account (st : MonSt) (oracle : String → CheckOutcome) (now : ℕ)
    (cookie_file : String) (skip_check : Bool) :
    MonSt × List Ev × Except String CheckResult :=
  if ¬skip_check ∧ st.is_checking then
    (st, [], Except.error "Уже выполняется другая проверка")
  else
    let username := pyDropRight cookie_file 4
    match oracle username with
    | CheckOutcome.loadError msg =>
      ({ st with is_checking := false },
       [Ev.setFlag true, Ev.setFlag false],
       Except.ok { username := username
                   status := "error"
                   message := some ("Ошибка загрузки куков: " ++ msg)
                   mdm_coins := none
                   tasks := []
                   gifts := [] })
    | CheckOutcome.authLost =>
      ({ st with is_checking := false },
       [Ev.setFlag true, Ev.driverOpen username, Ev.setFlag false],
       Except.ok { username := username
                   status := "error"
                   message := some "Ошибка авторизации"
                   mdm_coins := none
                   tasks := []
                   gifts := [] })
    | CheckOutcome.page chars tasks mdm gifts =>
      let db1 :=
        if username ≠ "" ∧ chars ≠ [] then
          save_account_characters st.db username chars
        else st.db
      if tasks = [] then
        ({ is_checking := false, db := db1 },
         [Ev.setFlag true, Ev.driverOpen username, Ev.setFlag false],
         Except.ok { username := username
                     status := "error"
                     message := some "Не удалось получить данные марафона"
                     mdm_coins := none
                     tasks := []
                     gifts := [] })
      else
        let db2 := save_account_data_check db1 username now mdm
        let db3 := tasks.foldl
          (fun d t => save_task_data d username t.name t.x t.y t.percent now) db2
        ({ is_checking := false, db := db3 },
         [Ev.setFlag true, Ev.driverOpen username, Ev.setFlag false],
         Except.ok { username := username
                     status := "success"
                     message := none
                     mdm_coins := some mdm
                     tasks := tasks
                     gifts := gifts })

/-! ### `_send_grouped_reports` (monitor.py lines 111-189)

The function is modelled as the ordered list of message strings handed to
`send_telegram_notification` (the short `time.sleep(1)` pacing between
split parts carries no observable content).  -/

/-- Python `"\n".join(parts)`. -/
def joinSep (sep : String) : List String → String
  | [] => ""
  | [x] => x
  | x :: r => x ++ sep ++ joinSep sep r

/-- One group's accumulated report lists (`groups[g] = {'success': …,
'errors': …, 'changes': …}`). -/
structure Bucket where
  success : List String
  errors : List String
  changes : List String
deriving DecidableEq

/-- Python `str.upper()`; agrees with `Char.toUpper` on the ASCII group
names all concrete inputs here use. -/
def pyUpper (s : String) : String := String.mk (s.data.map Char.toUpper)

/-- The changes loop (monitor.py lines 142-148): accumulates
`message_parts`, flushing a mid-report message whenever the running
joined length would exceed 3500. -/
def groupChangesFold (upper : String) (init : List String)
    (changes : List String) : List String × List String :=
  changes.foldl (fun acc change =>
    let parts := acc.1
    let sent := acc.2
    if 3500 < (joinSep "\n" parts ++ "\n" ++ change).length then
      let flushed := joinSep "\n" (parts ++ ["\n" ++ "```"])
      (["```" ++ "\n🏷️ ГРУППА: " ++ upper ++ " (продолжение)\n",
        "\n" ++ change], sent ++ [flushed])
    else (parts ++ ["\n" ++ change], sent))
    (init, [])

/-- The oversize splitter (monitor.py lines 159-173): walks
`message_parts`, starting a new part when the running length (each line
counted with a newline) would exceed 4000. -/
def splitParts (parts : List String) : List String :=
  let step := fun (acc : List String × List String × ℕ) (line : String) =>
    let out := acc.1
    let current := acc.2.1
    let len := acc.2.2
    let lineLen := line.length + 1
    if 4000 < len + lineLen then
      (out ++ [joinSep "\n" current], [line], lineLen)
    else (out, current ++ [line], len + lineLen)
  let fin := parts.foldl step ([], [], 0)
  fin.1 ++ (if fin.2.1 ≠ [] then [joinSep "\n" fin.2.1] else [])

/-- The messages sent for one group (monitor.py lines 129-179): skipped
when empty, otherwise header/success/changes/errors blocks wrapped in a
fenced span, flushed mid-way by the changes loop and split at the end
when the joined message exceeds 4096. -/
def groupMessages (group_name : String) (b : Bucket) : List String :=
  if b.success = [] ∧ b.errors = [] ∧ b.changes = [] then []
  else
    let upper := pyUpper group_name
    let p0 := ["\n🏷️ ГРУППА: " ++ upper ++ "\n" ++ "```"]
    let p1 := p0 ++
      (if b.success ≠ [] then ["\n✅ УСПЕШНО:\n" ++ joinSep "\n" b.success]
       else [])
    let p1c := p1 ++ (if b.changes ≠ [] then ["\n🎯 ИЗМЕНЕНИЯ:"] else [])
    let folded := groupChangesFold upper p1c b.changes
    let p2 := folded.1
    let sentMid := folded.2
    let p3 := p2 ++
      (if b.errors ≠ [] then ["\n⚠️ ОШИБКИ:\n" ++ joinSep "\n" b.errors]
       else [])
    let p4 := p3 ++ ["\n" ++ "```"]
    let full := joinSep "\n" p4
    sentMid ++ (if 4096 < full.length then splitParts p4 else [full])

/-- The expiring-gifts message (monitor.py lines 182-189). -/
def giftsMessage (expiring : List (String × List GiftScrape)) : String :=
  let body := (expiring.map (fun p =>
    ("\n👤 " ++ p.1 ++ ":") ::
      p.2.map (fun g => "  • " ++ g.name ++ " (до " ++ g.expires ++ ")"))).flatten
  joinSep "\n" ((("```" ++ "\n🎁 ПОДАРКИ СКОРО ИСТЕКАЮТ:") :: body) ++ ["```"])

/-- `monitor.py` `MarathonMonitor._send_grouped_reports`: the ordered
list of messages handed to the notification send. -/
def send_grouped_reports (groups : List (String × Bucket))
    (total_accounts : ℕ) (expiring : List (String × List GiftScrape)) :
    List String :=
  let success := (groups.map (fun g => g.2.success.length)).sum
  let errors := (groups.map (fun g => g.2.errors.length)).sum
  let header :=
    "\n📊 ОТЧЕТ О ПРОВЕРКЕ АККАУНТОВ\n────────────────────────────\n" ++
    s!"🔹 Всего проверено: {total_accounts}\n" ++
    s!"✅ Успешно: {success}\n" ++
    s!"❌ Ошибки: {errors}\n"
  let groupMsgs := (groups.map (fun g => groupMessages g.1 g.2)).flatten
  let giftMsgs := if expiring ≠ [] then [giftsMessage expiring] else []
  header :: groupMsgs ++ giftMsgs

/-! ### `check_all_accounts` (monitor.py lines 588-697) -/

deriving instance DecidableEq for Except

/-- One entry of `previous_data` (monitor.py lines 608-616). -/
structure PrevData where
  «alias» : Option String
  group_name : String
  mdm_coins : Option String
  tasks : List (String × ℤ × ℤ)
deriving DecidableEq

/-- A Python value that is either a `str` or `None` (the `mdm_coins`
column is nullable and flows into the diff untranslated). -/
inductive PyStr where
  | str (s : String)
  | noneV
deriving DecidableEq

/-- How an f-string renders the value (`None` prints as `"None"`). -/
def pyShow : PyStr → String
  | .str s => s
  | .noneV => "None"

/-- All stored task triples of one account, in insertion order (the
`array_agg` subquery of `get_accounts_with_tasks_and_groups` collects
every history row without an ORDER BY; in practice aggregation follows
physical insertion order, which row order models). -/
def accountTaskTriples (db : DBState) (u : String) : List (String × ℤ × ℤ) :=
  (db.tasks.filter (fun r => r.username = u)).map
    (fun t => (t.task_name, t.current, t.total))

/-- `group_name or "Без группы"`: the LEFT-JOINed group name with
Python's falsy fallback (`None` and the empty string both fall back). -/
def groupKeyOf (db : DBState) (a : AccountRow) : String :=
  match a.group_id.bind (fun gid =>
    Option.map Prod.snd (db.groups.find? (fun g => g.1 = gid))) with
  | none => "Без группы"
  | some n => if n = "" then "Без группы" else n

/-- `previous_data` as built from
`get_accounts_with_tasks_and_groups` (monitor.py lines 606-616); the
tasks dict keeps the last aggregated pair per task name. -/
def buildPrev (db : DBState) : List (String × PrevData) :=
  db.accounts.foldl (fun acc a =>
    dictInsert a.username
      { «alias» := a.«alias»
        group_name := groupKeyOf db a
        mdm_coins := a.mdm_coins
        tasks := (accountTaskTriples db a.username).foldl
          (fun d t => dictInsert t.1 t.2 d) [] } acc) []

/-- The `groups` result dict (monitor.py lines 617-622): one empty
bucket per group key seen in the previous snapshot. -/
def buildGroups (db : DBState) : List (String × Bucket) :=
  db.accounts.foldl (fun g a =>
    let k := groupKeyOf db a
    if (dlookup k g).isSome then g else g ++ [(k, ⟨[], [], []⟩)]) []

/-- `groups[k] = f(groups[k])`: Python raises `KeyError` when the key is
absent, modelled as `none`. -/
def dictModify (k : String) (f : Bucket → Bucket) :
    List (String × Bucket) → Option (List (String × Bucket))
  | [] => none
  | (k', b) :: r =>
    if k' = k then some ((k', f b) :: r)
    else Option.map (fun ls => (k', b) :: ls) (dictModify k f r)

/-- The MDM-coin diff (monitor.py lines 647-657).  `int(None)` raises an
uncaught `TypeError` (only `ValueError` is handled), modelled as
`Except.error`; a `ValueError` on either side falls back to the plain
"было" line. -/
def mdmChangeLine (current_mdm : String) (prev_mdm : PyStr) :
    Except String (Option String) :=
  if PyStr.str current_mdm = prev_mdm then Except.ok none
  else
    match pyParseInt current_mdm with
    | none =>
      Except.ok (some ("💰 Монеты МДМ: " ++ current_mdm ++ " (было " ++
        pyShow prev_mdm ++ ")"))
    | some c =>
      match prev_mdm with
      | PyStr.noneV => Except.error "TypeError: int() argument is None"
      | PyStr.str p =>
        match pyParseInt p with
        | none =>
          Except.ok (some ("💰 Монеты МДМ: " ++ current_mdm ++ " (было " ++
            p ++ ")"))
        | some pv =>
          let d := c - pv
          Except.ok (some ("💰 Монеты МДМ: " ++
            (if 0 < d then "🔼 +" else "🔽 ") ++ toString d.natAbs ++
            " (" ++ p ++ " → " ++ current_mdm ++ ")"))

/-- The per-account body of the batch loop (monitor.py lines 632-690):
bucket the result, compute the mdm and task diffs, collect expiring
gifts.  `Except.error` models an uncaught exception (`KeyError` on a
missing group bucket, `TypeError` in the mdm diff) aborting the batch. -/
def processAccount (prev : List (String × PrevData))
    (groups : List (String × Bucket))
    (expiring : List (String × List GiftScrape)) (r : CheckResult) :
    Except String (List (String × Bucket) × List (String × List GiftScrape)) :=
  let username := r.username
  let prevOpt := dlookup username prev
  let group_name := match prevOpt with
    | none => "Без группы"
    | some p => p.group_name
  let display := username
  if r.status ≠ "success" then
    match dictModify group_name (fun b =>
        { b with errors := b.errors ++
            ["🔴 " ++ display ++ ": " ++ r.message.getD ""] }) groups with
    | none => Except.error ("KeyError: " ++ group_name)
    | some g' => Except.ok (g', expiring)
  else
    match dictModify group_name (fun b =>
        { b with success := b.success ++ ["🟢 " ++ display] }) groups with
    | none => Except.error ("KeyError: " ++ group_name)
    | some g1 =>
      let current_mdm := r.mdm_coins.getD "0"
      let prev_mdm : PyStr := match prevOpt with
        | none => PyStr.str "0"
        | some p => match p.mdm_coins with
          | none => PyStr.noneV
          | some s => PyStr.str s
      match mdmChangeLine current_mdm prev_mdm with
      | Except.error e => Except.error e
      | Except.ok mdmLn =>
        let changes0 := match mdmLn with
          | none => ([] : List String)
          | some ln => [ln]
        let prev_tasks := match prevOpt with
          | none => ([] : List (String × ℤ × ℤ))
          | some p => p.tasks
        let tcs := task_changes prev_tasks (tasksDict r.tasks)
        let changes1 := changes0 ++
          (if tcs ≠ [] then ["📝 Задания:\n" ++ joinSep "\n" tcs] else [])
        let g2 :=
          if changes1 ≠ [] then
            dictModify group_name (fun b =>
              { b with changes := b.changes ++
                  ["✨ " ++ display ++ " (" ++ username ++ "):\n" ++
                    joinSep "\n" changes1] }) g1
          else some g1
        match g2 with
        | none => Except.error ("KeyError: " ++ group_name)
        | some g2' =>
          let expiring' :=
            if r.gifts ≠ [] then dictInsert username r.gifts expiring
            else expiring
          Except.ok (g2', expiring')

/-- The running state of the batch loop. -/
structure LoopSt where
  mon : MonSt
  evs : List Ev
  results : List CheckResult
  groups : List (String × Bucket)
  expiring : List (String × List GiftScrape)
deriving DecidableEq

/-- The `for cookie_file in cookie_files` loop (monitor.py lines
628-690); an uncaught exception aborts it, carrying the state reached. -/
def batchLoop (oracle : String → CheckOutcome) (now : ℕ)
    (prev : List (String × PrevData)) :
    LoopSt → List String → Except (LoopSt × String) LoopSt
  | ls, [] => Except.ok ls
  | ls, f :: rest =>
    let ca := check_account ls.mon oracle now f true
    match ca.2.2 with
    | Except.error e => Except.error (ls, e)
    | Except.ok r =>
      let ls1 : LoopSt :=
        { ls with
          mon := ca.1
          evs := ls.evs ++ ca.2.1 ++ [Ev.diffPhase r.username]
          results := ls.results ++ [r] }
      match processAccount prev ls1.groups ls1.expiring r with
      | Except.error e => Except.error (ls1, e)
      | Except.ok gx =>
        batchLoop oracle now prev
          { ls1 with groups := gx.1, expiring := gx.2 } rest

/-- `monitor.py` `MarathonMonitor.check_all_accounts`: busy guard, flag
set, cookie listing, empty-input warning, previous-snapshot read, the
per-account loop, report sends, and the `finally` that clears the flag
on every path (`Except.error` = the uncaught exception the caller
sees). -/
def check_all_accounts (st : MonSt) (oracle : String → CheckOutcome)
    (now : ℕ) (dirListing : List String) :
    MonSt × List Ev × Except String Unit :=
  if st.is_checking then (st, [], Except.ok ())
  else
    let st1 : MonSt := { st with is_checking := true }
    let cookie_files := dirListing.filter (fun f => pyEndsWith f ".pkl")
    if cookie_files = [] then
      ({ st1 with is_checking := false },
       [Ev.setFlag true, Ev.send "⚠️ Нет файлов с куками для проверки",
        Ev.setFlag false],
       Except.ok ())
    else
      let prev := buildPrev st1.db
      let groups0 := buildGroups st1.db
      match batchLoop oracle now prev
          { mon := st1, evs := [Ev.setFlag true], results := [],
            groups := groups0, expiring := [] } cookie_files with
      | Except.error lse =>
        ({ lse.1.mon with is_checking := false },
         lse.1.evs ++ [Ev.setFlag false], Except.error lse.2)
      | Except.ok ls =>
        let sends := send_grouped_reports ls.groups ls.results.length
          ls.expiring
        ({ ls.mon with is_checking := false },
         ls.evs ++ [Ev.reportPhase] ++ sends.map Ev.send ++ [Ev.setFlag false],
         Except.ok ())

/-- The busy-flag value in force when the batch loop reaches a given
account's diff step, read off an event trace (`none` when that diff step
never happens). -/
def flagAtDiffGo (u : String) (b : Bool) : List Ev → Option Bool
  | [] => none
  | Ev.setFlag v :: r => flagAtDiffGo u v r
  | Ev.diffPhase u' :: r => if u' = u then some b else flagAtDiffGo u b r
  | _ :: r => flagAtDiffGo u b r

def flagAtDiff (tr : List Ev) (u : String) : Option Bool :=
  flagAtDiffGo u false tr

/-! ### C8: the busy guard -/

/-- C8. If the shared busy flag is set, a second invocation of
`check_all_accounts` returns immediately: the state (flag and every
table) is exactly what it was, no per-account check runs, and nothing is
sent (the event trace is empty). -/
theorem c8_single_flight (st : MonSt) (oracle : String → CheckOutcome)
    (now : ℕ) (dirListing : List String) (h : st.is_checking = true) :
    check_all_accounts st oracle now dirListing = (st, [], Except.ok ()) := by
  unfold check_all_accounts
  rw [if_pos h]

/-- Witness for C8 at a concrete busy state. -/
theorem c8_single_flight_witness :
    check_all_accounts
        { is_checking := true, db := ⟨[], [], [], [], []⟩ }
        (fun _ => CheckOutcome.authLost) 0 ["u.pkl"] =
      ({ is_checking := true, db := ⟨[], [], [], [], []⟩ }, [],
        Except.ok ()) :=
  c8_single_flight _ _ 0 _ rfl

/-! ### C1: the busy flag across a batch -/

/-- C1 scenario: one stored account `u` (ungrouped, coins `"5"`, one
task row `T 1/2`) and one cookie file; the scrape returns the same
values, so the diff is empty. -/
def c1db : DBState :=
  { groups := []
    accounts := [{ freshAccount "u" with mdm_coins := some "5" }]
    tasks := [TaskRow.mk "u" "T" 1 2 50 0]
    characters := []
    gifts := [] }

def c1oracle : String → CheckOutcome :=
  fun _ => CheckOutcome.page [] [TaskScrape.mk "T" 1 2 50] "5" []

/-- C1. The busy flag is *not* held for the whole batch: in the C1
scenario the trace opens with the flag being set, but by the time the
batch loop reaches account `u`'s diff/report step the flag has already
been cleared again (by `check_account`'s own `finally`), and it is
clear at exit. -/
theorem c1_flag_not_held_through_batch :
    flagAtDiff (check_all_accounts ⟨false, c1db⟩ c1oracle 1 ["u.pkl"]).2.1
        "u" = some false ∧
    (check_all_accounts ⟨false, c1db⟩ c1oracle 1 ["u.pkl"]).2.1.head? =
      some (Ev.setFlag true) ∧
    (check_all_accounts ⟨false, c1db⟩ c1oracle 1 ["u.pkl"]).1.is_checking =
      false := by
  refine ⟨?_, ?_, ?_⟩ <;> decide

/-! ### C2: one account's failure aborting the whole batch -/

/-- C2 scenario: an empty database (no previous snapshot at all) and one
cookie file whose account check fails while loading the cookies. -/
def c2oracle : String → CheckOutcome :=
  fun _ => CheckOutcome.loadError "boom"

/-- C2. The failing account's error is *not* recorded and the batch does
*not* run to completion: with no bucket named `Без группы` in the groups
dict, `groups[group_name]` raises `KeyError`, the batch aborts before
any report is sent (the trace holds no `reportPhase` and no `send`), and
only the `finally` clears the flag. -/
theorem c2_batch_aborts_on_missing_bucket :
    (check_all_accounts ⟨false, ⟨[], [], [], [], []⟩⟩ c2oracle 0
        ["u.pkl"]).2.2 = Except.error "KeyError: Без группы" ∧
    (check_all_accounts ⟨false, ⟨[], [], [], [], []⟩⟩ c2oracle 0
        ["u.pkl"]).2.1 =
      [Ev.setFlag true, Ev.setFlag true, Ev.setFlag false,
       Ev.diffPhase "u", Ev.setFlag false] ∧
    (check_all_accounts ⟨false, ⟨[], [], [], [], []⟩⟩ c2oracle 0
        ["u.pkl"]).1.is_checking = false := by
  refine ⟨?_, ?_, ?_⟩ <;> decide

/-! ### C3: cross-set consistency of one check's writes -/

theorem save_account_characters_tasks (db : DBState) (u : String)
    (cd : List (String × List CharScrape)) :
    (save_account_characters db u cd).tasks = db.tasks := rfl

theorem save_account_characters_gifts (db : DBState) (u : String)
    (cd : List (String × List CharScrape)) :
    (save_account_characters db u cd).gifts = db.gifts := rfl

theorem save_account_data_check_tasks (db : DBState) (u : String) (now : ℕ)
    (m : String) : (save_account_data_check db u now m).tasks = db.tasks := by
  unfold save_account_data_check
  split <;> rfl

theorem save_account_data_check_characters (db : DBState) (u : String)
    (now : ℕ) (m : String) :
    (save_account_data_check db u now m).characters = db.characters := by
  unfold save_account_data_check
  split <;> rfl

theorem save_account_data_check_gifts (db : DBState) (u : String) (now : ℕ)
    (m : String) : (save_account_data_check db u now m).gifts = db.gifts := by
  unfold save_account_data_check
  split <;> rfl

theorem save_task_data_accounts (db : DBState) (u n : String) (x y : ℤ)
    (p : ℚ) (ts : ℕ) : (save_task_data db u n x y p ts).accounts = db.accounts := by
  unfold save_task_data
  repeat' split
  all_goals rfl

theorem save_task_data_characters (db : DBState) (u n : String) (x y : ℤ)
    (p : ℚ) (ts : ℕ) :
    (save_task_data db u n x y p ts).characters = db.characters := by
  unfold save_task_data
  repeat' split
  all_goals rfl

theorem save_task_data_gifts (db : DBState) (u n : String) (x y : ℤ)
    (p : ℚ) (ts : ℕ) : (save_task_data db u n x y p ts).gifts = db.gifts := by
  unfold save_task_data
  repeat' split
  all_goals rfl

theorem accountExists_save_task_data (db : DBState) (u' u n : String)
    (x y : ℤ) (p : ℚ) (ts : ℕ) :
    accountExists (save_task_data db u' n x y p ts) u = accountExists db u := by
  unfold accountExists
  rw [save_task_data_accounts]

/-- A task save for a different task name leaves another name's history
rows untouched. -/
theorem save_task_data_filter_ne {n n' : String} (h : n' ≠ n)
    (db : DBState) (u' u : String) (x y : ℤ) (p : ℚ) (ts : ℕ) :
    (save_task_data db u' n' x y p ts).tasks.filter
        (fun r => r.username = u ∧ r.task_name = n) =
      db.tasks.filter (fun r => r.username = u ∧ r.task_name = n) := by
  unfold save_task_data
  repeat' split
  all_goals simp [List.filter_append, h]

theorem latestTaskPair_save_ne {n n' : String} (h : n' ≠ n)
    (db : DBState) (u' u : String) (x y : ℤ) (p : ℚ) (ts : ℕ) :
    latestTaskPair (save_task_data db u' n' x y p ts) u n =
      latestTaskPair db u n := by
  unfold latestTaskPair
  rw [save_task_data_filter_ne h]

/-- After `save_task_data` for an existing account, the latest stored
pair for that task is the saved one (either the unchanged equal pair or
the newly appended row). -/
theorem latestTaskPair_after_save (db : DBState) (u n : String) (x y : ℤ)
    (p : ℚ) (ts : ℕ) (hacc : accountExists db u = true) :
    latestTaskPair (save_task_data db u n x y p ts) u n = some (x, y) := by
  unfold save_task_data
  rw [if_pos hacc]
  cases hl : latestTaskPair db u n with
  | none =>
    unfold latestTaskPair
    simp only [List.filter_append]
    rw [List.filter_cons]
    simp
  | some ct =>
    obtain ⟨c, t⟩ := ct
    dsimp only
    by_cases heq : c = x ∧ t = y
    · rw [if_pos heq]
      rw [hl, heq.1, heq.2]
    · rw [if_neg heq]
      unfold latestTaskPair
      simp only [List.filter_append]
      rw [List.filter_cons]
      simp

theorem foldl_save_task_characters (tasks : List TaskScrape) (db : DBState)
    (u : String) (now : ℕ) :
    (tasks.foldl (fun d t => save_task_data d u t.name t.x t.y t.percent now)
        db).characters = db.characters := by
  induction tasks generalizing db with
  | nil => rfl
  | cons t rest ih =>
    rw [List.foldl_cons, ih, save_task_data_characters]

theorem foldl_save_task_gifts (tasks : List TaskScrape) (db : DBState)
    (u : String) (now : ℕ) :
    (tasks.foldl (fun d t => save_task_data d u t.name t.x t.y t.percent now)
        db).gifts = db.gifts := by
  induction tasks generalizing db with
  | nil => rfl
  | cons t rest ih =>
    rw [List.foldl_cons, ih, save_task_data_gifts]

theorem foldl_latest_preserved {rest : List TaskScrape} {n : String}
    (h : ∀ t ∈ rest, t.name ≠ n) (db : DBState) (u : String) (now : ℕ) :
    latestTaskPair
        (rest.foldl (fun d t => save_task_data d u t.name t.x t.y t.percent now) db)
        u n = latestTaskPair db u n := by
  induction rest generalizing db with
  | nil => rfl
  | cons t r ih =>
    rw [List.foldl_cons,
      ih (fun s hs => h s (List.mem_cons_of_mem _ hs)),
      latestTaskPair_save_ne (h t (List.mem_cons_self _ _))]

/-- Saving the whole scraped task list leaves, for every task, the
scraped pair as the latest stored pair. -/
theorem foldl_save_task_latest :
    ∀ {tasks : List TaskScrape}, (tasks.map TaskScrape.name).Nodup →
      ∀ (db : DBState) (u : String) (now : ℕ),
        accountExists db u = true → ∀ t ∈ tasks,
          latestTaskPair
            (tasks.foldl
              (fun d t => save_task_data d u t.name t.x t.y t.percent now) db)
            u t.name = some (t.x, t.y) := by
  intro tasks
  induction tasks with
  | nil => intro _ db u now _ t ht; cases ht
  | cons t0 rest ih =>
    intro hnodup db u now hacc t ht
    rw [List.map_cons, List.nodup_cons] at hnodup
    have hacc1 : accountExists
        (save_task_data db u t0.name t0.x t0.y t0.percent now) u = true := by
      rw [accountExists_save_task_data]
      exact hacc
    rcases List.mem_cons.mp ht with rfl | ht'
    · rw [List.foldl_cons]
      have hne : ∀ s ∈ rest, s.name ≠ t.name := by
        intro s hs hcon
        exact hnodup.1 (hcon ▸ List.mem_map_of_mem TaskScrape.name hs)
      rw [foldl_latest_preserved hne]
      exact latestTaskPair_after_save db u t.name t.x t.y t.percent now hacc
    · rw [List.foldl_cons]
      exact ih hnodup.2 _ u now hacc1 t ht'

theorem accountExists_save_account_data_check (db : DBState) (u : String)
    (now : ℕ) (m : String) :
    accountExists (save_account_data_check db u now m) u = true := by
  unfold save_account_data_check accountExists
  split
  · rename_i h
    simp only [List.any_map]
    rcases List.any_eq_true.mp h with ⟨a, ha, haa⟩
    refine List.any_eq_true.mpr ⟨a, ha, ?_⟩
    simp only [Function.comp]
    split <;> simp_all
  · simp [freshAccount]

/-- After `save_account_characters`, the account's stored character rows
are exactly the scraped ones. -/
theorem save_account_characters_filter (db : DBState) (u : String)
    (cd : List (String × List CharScrape)) :
    (save_account_characters db u cd).characters.filter
        (fun c => c.username = u) =
      (cd.map (fun p => p.2.map (fun ch =>
        CharRow.mk u p.1 ch.name ch.className ch.level))).flatten := by
  unfold save_account_characters
  simp only [List.filter_append]
  have h1 : (db.characters.filter (fun c => c.username ≠ u)).filter
      (fun c => c.username = u) = [] := by
    apply List.filter_eq_nil_iff.mpr
    intro c hc
    have := List.of_mem_filter hc
    simp_all
  have h2 : ((cd.map (fun p => p.2.map (fun ch =>
      CharRow.mk u p.1 ch.name ch.className ch.level))).flatten).filter
        (fun c => c.username = u) =
      (cd.map (fun p => p.2.map (fun ch =>
        CharRow.mk u p.1 ch.name ch.className ch.level))).flatten := by
    apply List.filter_eq_self.mpr
    intro c hc
    rcases List.mem_flatten.mp hc with ⟨inner, hinner, hcin⟩
    rcases List.mem_map.mp hinner with ⟨p, _, rfl⟩
    rcases List.mem_map.mp hcin with ⟨ch, _, rfl⟩
    simp
  rw [h1, h2, List.nil_append]

/-- C3 (amended).  Within one account check on a scraped page: gift rows
are never written; the task row-set is written only when task extraction
succeeded (on a failed extraction it is exactly the previous one), and
then every scraped task's latest stored pair is the scraped pair; the
character row-set is replaced by the scrape exactly when character
collection produced data (even if the check then fails), and is
untouched otherwise.  So the three sets are *not* updated as one unit:
only the task set is tied to the check's success. -/
theorem c3_check_account_amended
    (st : MonSt) (oracle : String → CheckOutcome) (now : ℕ) (f : String)
    (chars : List (String × List CharScrape)) (tasks : List TaskScrape)
    (mdm : String) (gifts : List GiftScrape)
    (horacle : oracle (pyDropRight f 4) =
      CheckOutcome.page chars tasks mdm gifts)
    (hnodup : (tasks.map TaskScrape.name).Nodup) :
    ((check_account st oracle now f true).1.db.gifts = st.db.gifts) ∧
    (tasks = [] →
      (check_account st oracle now f true).1.db.tasks = st.db.tasks) ∧
    (∀ t ∈ tasks,
      latestTaskPair (check_account st oracle now f true).1.db
        (pyDropRight f 4) t.name = some (t.x, t.y)) ∧
    (pyDropRight f 4 ≠ "" ∧ chars ≠ [] →
      (check_account st oracle now f true).1.db.characters.filter
          (fun c => c.username = pyDropRight f 4) =
        (chars.map (fun p => p.2.map (fun ch =>
          CharRow.mk (pyDropRight f 4) p.1 ch.name ch.className
            ch.level))).flatten) ∧
    (¬(pyDropRight f 4 ≠ "" ∧ chars ≠ []) →
      (check_account st oracle now f true).1.db.characters =
        st.db.characters) := by
  have hguard : ¬(¬(true : Bool) ∧ st.is_checking) := by simp
  by_cases htasks : tasks = []
  · subst htasks
    have hca : (check_account st oracle now f true).1.db =
        (if pyDropRight f 4 ≠ "" ∧ chars ≠ [] then
          save_account_characters st.db (pyDropRight f 4) chars
        else st.db) := by
      unfold check_account
      rw [if_neg hguard]
      simp only [horacle]
      rw [if_pos trivial]
    rw [hca]
    by_cases hchars : pyDropRight f 4 ≠ "" ∧ chars ≠ []
    · rw [if_pos hchars]
      exact ⟨save_account_characters_gifts .., fun _ =>
        save_account_characters_tasks .., fun t ht => absurd ht (by simp),
        fun _ => save_account_characters_filter .., fun hcon =>
          absurd hchars hcon⟩
    · rw [if_neg hchars]
      exact ⟨rfl, fun _ => rfl, fun t ht => absurd ht (by simp),
        fun hc => absurd hc hchars, fun _ => rfl⟩
  · have hca : (check_account st oracle now f true).1.db =
        tasks.foldl (fun d t => save_task_data d (pyDropRight f 4)
            t.name t.x t.y t.percent now)
          (save_account_data_check
            (if pyDropRight f 4 ≠ "" ∧ chars ≠ [] then
              save_account_characters st.db (pyDropRight f 4) chars
            else st.db)
            (pyDropRight f 4) now mdm) := by
      unfold check_account
      rw [if_neg hguard]
      simp only [horacle]
      rw [if_neg htasks]
    rw [hca]
    set db1 := (if pyDropRight f 4 ≠ "" ∧ chars ≠ [] then
      save_account_characters st.db (pyDropRight f 4) chars
    else st.db) with hdb1
    have hgifts1 : db1.gifts = st.db.gifts := by
      rw [hdb1]
      split
      · exact save_account_characters_gifts ..
      · rfl
    have hchars1pos : pyDropRight f 4 ≠ "" ∧ chars ≠ [] →
        db1.characters.filter (fun c => c.username = pyDropRight f 4) =
          (chars.map (fun p => p.2.map (fun ch =>
            CharRow.mk (pyDropRight f 4) p.1 ch.name ch.className
              ch.level))).flatten := by
      intro hc
      rw [hdb1, if_pos hc]
      exact save_account_characters_filter ..
    have hchars1neg : ¬(pyDropRight f 4 ≠ "" ∧ chars ≠ []) →
        db1.characters = st.db.characters := by
      intro hc
      rw [hdb1, if_neg hc]
    have hacc : accountExists
        (save_account_data_check db1 (pyDropRight f 4) now mdm)
        (pyDropRight f 4) = true :=
      accountExists_save_account_data_check ..
    refine ⟨?_, fun hcon => absurd hcon htasks, ?_, ?_, ?_⟩
    · rw [foldl_save_task_gifts, save_account_data_check_gifts, hgifts1]
    · intro t ht
      exact foldl_save_task_latest hnodup _ _ now hacc t ht
    · intro hc
      rw [foldl_save_task_characters, save_account_data_check_characters]
      exact hchars1pos hc
    · intro hc
      rw [foldl_save_task_characters, save_account_data_check_characters]
      exact hchars1neg hc

/-- C3 scenario: account `u` has an old task row and an old character
row; the scrape collects a fresh character but task extraction fails. -/
def c3db : DBState :=
  { groups := []
    accounts := [freshAccount "u"]
    tasks := [TaskRow.mk "u" "Old" 1 10 10 0]
    characters := [CharRow.mk "u" "S" "OldHero" (some "W") (some 3)]
    gifts := [] }

def c3oracle : String → CheckOutcome :=
  fun _ => CheckOutcome.page [("S", [CharScrape.mk "Hero" (some "W") (some 5)])]
    [] "0" []

/-- C3 counterexample: after this single check completes (reporting an
extraction error), the character row-set already reflects the new scrape
while the task row-set still reflects the older one — a partial
overwrite across the sets, which the claim rules out. -/
theorem c3_partial_overwrite_counterexample :
    (check_account ⟨false, c3db⟩ c3oracle 1 "u.pkl" true).1.db.characters =
        [CharRow.mk "u" "S" "Hero" (some "W") (some 5)] ∧
    (check_account ⟨false, c3db⟩ c3oracle 1 "u.pkl" true).1.db.characters ≠
        c3db.characters ∧
    (check_account ⟨false, c3db⟩ c3oracle 1 "u.pkl" true).1.db.tasks =
        c3db.tasks ∧
    (check_account ⟨false, c3db⟩ c3oracle 1 "u.pkl" true).2.2 =
      Except.ok { username := "u"
                  status := "error"
                  message := some "Не удалось получить данные марафона"
                  mdm_coins := none
                  tasks := []
                  gifts := [] } := by
  refine ⟨?_, ?_, ?_, ?_⟩ <;> decide

/-- Witness for the amended C3 claim at a concrete successful check. -/
theorem c3_check_account_amended_witness :
    ((check_account ⟨false, c3db⟩
        (fun _ => CheckOutcome.page
          [("S", [CharScrape.mk "Hero" (some "W") (some 5)])]
          [TaskScrape.mk "T" 3 10 30] "7" [])
        1 "u.pkl" true).1.db.gifts = c3db.gifts) ∧
    (∀ t ∈ [TaskScrape.mk "T" 3 10 30],
      latestTaskPair (check_account ⟨false, c3db⟩
        (fun _ => CheckOutcome.page
          [("S", [CharScrape.mk "Hero" (some "W") (some 5)])]
          [TaskScrape.mk "T" 3 10 30] "7" [])
        1 "u.pkl" true).1.db (pyDropRight "u.pkl" 4) t.name =
        some (t.x, t.y)) := by
  have h := c3_check_account_amended ⟨false, c3db⟩
    (fun _ => CheckOutcome.page
      [("S", [CharScrape.mk "Hero" (some "W") (some 5)])]
      [TaskScrape.mk "T" 3 10 30] "7" [])
    1 "u.pkl"
    [("S", [CharScrape.mk "Hero" (some "W") (some 5)])]
    [TaskScrape.mk "T" 3 10 30] "7" [] rfl (by decide)
  exact ⟨h.1, h.2.2.1⟩

/-! ### C7: the per-message size ceiling -/

theorem joinSep_length_ge {x : String} :
    ∀ {parts : List String}, x ∈ parts →
      x.length ≤ (joinSep "\n" parts).length := by
  intro parts
  induction parts with
  | nil => intro h; cases h
  | cons y r ih =>
    intro h
    cases r with
    | nil =>
      rcases List.mem_cons.mp h with rfl | h'
      · simp [joinSep]
      · cases h'
    | cons z r' =>
      have : joinSep "\n" (y :: z :: r') =
          y ++ "\n" ++ joinSep "\n" (z :: r') := rfl
      rw [this, String.length_append, String.length_append]
      rcases List.mem_cons.mp h with rfl | h'
      · omega
      · have := ih h'
        omega

/-- The splitter's step function, named for reasoning (definitionally
the fold body of `splitParts`). -/
def splitStep (acc : List String × List String × ℕ) (line : String) :
    List String × List String × ℕ :=
  if 4000 < acc.2.2 + (line.length + 1) then
    (acc.1 ++ [joinSep "\n" acc.2.1], [line], line.length + 1)
  else (acc.1, acc.2.1 ++ [line], acc.2.2 + (line.length + 1))

/-- The splitter from an arbitrary accumulator. -/
def splitGo (acc : List String × List String × ℕ) (parts : List String) :
    List String :=
  (parts.foldl splitStep acc).1 ++
    (if (parts.foldl splitStep acc).2.1 ≠ [] then
      [joinSep "\n" (parts.foldl splitStep acc).2.1]
    else [])

theorem splitParts_eq_splitGo (parts : List String) :
    splitParts parts = splitGo ([], [], 0) parts := rfl

/-- The splitter only ever appends to the accumulated output. -/
theorem splitStep_out_mono (parts : List String) :
    ∀ (out cur : List String) (len : ℕ),
      ∃ suffix, (parts.foldl splitStep (out, cur, len)).1 = out ++ suffix := by
  induction parts with
  | nil => intro out cur len; exact ⟨[], by simp⟩
  | cons p rest ih =>
    intro out cur len
    rw [List.foldl_cons]
    by_cases hc : 4000 < len + (p.length + 1)
    · have hstep : splitStep (out, cur, len) p =
          (out ++ [joinSep "\n" cur], [p], p.length + 1) := by
        simp only [splitStep]
        rw [if_pos hc]
      rw [hstep]
      rcases ih (out ++ [joinSep "\n" cur]) [p] (p.length + 1) with ⟨sfx, hsfx⟩
      exact ⟨[joinSep "\n" cur] ++ sfx, by rw [hsfx, List.append_assoc]⟩
    · have hstep : splitStep (out, cur, len) p =
          (out, cur ++ [p], len + (p.length + 1)) := by
        simp only [splitStep]
        rw [if_neg hc]
      rw [hstep]
      exact ih out (cur ++ [p]) (len + (p.length + 1))

/-- Once the splitter's current part is a single over-long line, that
line is emitted on its own (either flushed by the next line or by the
final flush). -/
theorem splitStep_emits_current {x : String} (hx : 4000 ≤ x.length) :
    ∀ (parts : List String) (out : List String),
      x ∈ splitGo (out, [x], x.length + 1) parts := by
  intro parts
  induction parts with
  | nil =>
    intro out
    unfold splitGo
    rw [List.foldl_nil]
    have hjoin : joinSep "\n" [x] = x := rfl
    simp [hjoin]
  | cons p rest ih =>
    intro out
    unfold splitGo
    rw [List.foldl_cons]
    have hstep : splitStep (out, [x], x.length + 1) p =
        (out ++ [joinSep "\n" [x]], [p], p.length + 1) := by
      simp only [splitStep]
      rw [if_pos (by omega)]
    rw [hstep]
    have hjoin : joinSep "\n" [x] = x := rfl
    rw [hjoin]
    rcases splitStep_out_mono rest (out ++ [x]) [p] (p.length + 1) with
      ⟨sfx, hsfx⟩
    rw [hsfx]
    simp

/-- Every over-long element of `message_parts` survives the splitter as
a whole message of its own. -/
theorem splitParts_mem_oversized {x : String} (hx : 4000 ≤ x.length) :
    ∀ (parts : List String) (out cur : List String) (len : ℕ), x ∈ parts →
      x ∈ splitGo (out, cur, len) parts := by
  intro parts
  induction parts with
  | nil => intro out cur len h; cases h
  | cons p rest ih =>
    intro out cur len h
    rcases List.mem_cons.mp h with rfl | h'
    · unfold splitGo
      rw [List.foldl_cons]
      have hstep : splitStep (out, cur, len) x =
          (out ++ [joinSep "\n" cur], [x], x.length + 1) := by
        simp only [splitStep]
        rw [if_pos (by omega)]
      rw [hstep]
      exact splitStep_emits_current hx rest (out ++ [joinSep "\n" cur])
    · unfold splitGo
      rw [List.foldl_cons]
      have := ih (splitStep (out, cur, len) p).1
        (splitStep (out, cur, len) p).2.1 (splitStep (out, cur, len) p).2.2 h'
      unfold splitGo at this
      simpa using this

/-- C7.  The per-message ceiling is *not* enforced: whenever a single
`message_parts` block (here a group's success block) exceeds the
ceiling, `_send_grouped_reports` hands the notification send a message
longer than 4096 characters — the splitter cannot break a single
block. -/
theorem c7_send_grouped_reports_oversized (s : String)
    (hs : 4096 < s.length) :
    ("\n✅ УСПЕШНО:\n" ++ s) ∈
      send_grouped_reports [("G", ⟨[s], [], []⟩)] 1 [] ∧
    4096 < ("\n✅ УСПЕШНО:\n" ++ s).length := by
  have h12 : ("\n✅ УСПЕШНО:\n" : String).length = 12 := rfl
  have hlen : ("\n✅ УСПЕШНО:\n" ++ s).length = 12 + s.length := by
    rw [String.length_append, h12]
  constructor
  case right => omega
  case left =>
    unfold send_grouped_reports
    rw [if_neg (by simp)]
    refine List.mem_cons_of_mem _ ?_
    simp only [List.map_cons, List.map_nil, List.flatten_cons,
      List.flatten_nil, List.append_nil]
    unfold groupMessages
    rw [if_neg (by simp)]
    have hT : (([s] : List String) ≠ []) = True := by simp
    have hF : (([] : List String) ≠ []) = False := by simp
    simp only [hT, hF, if_true, if_false, groupChangesFold, List.foldl_nil,
      List.append_nil, List.nil_append]
    have hjoin1 : joinSep "\n" [s] = s := rfl
    rw [hjoin1]
    simp only [List.append_eq, List.append_nil, List.nil_append,
      List.singleton_append, List.cons_append]
    have hmem : ("\n✅ УСПЕШНО:\n" ++ s) ∈
        ["\n🏷️ ГРУППА: " ++ pyUpper "G" ++ "\n" ++ "```",
         "\n✅ УСПЕШНО:\n" ++ s, "\n" ++ "```"] := by simp
    have hge := joinSep_length_ge hmem
    rw [if_pos (by omega)]
    rw [splitParts_eq_splitGo]
    exact splitParts_mem_oversized (by omega) _ [] [] 0 hmem

/-- The concrete over-long success block for the C7 witness. -/
def c7bigLine : String := String.mk (List.replicate 4200 'a')

/-- Witness: a group whose success block is 4200 characters long makes
`_send_grouped_reports` send a 4212-character message. -/
theorem c7_send_grouped_reports_oversized_witness :
    ("\n✅ УСПЕШНО:\n" ++ c7bigLine) ∈
      send_grouped_reports [("G", ⟨[c7bigLine], [], []⟩)] 1 [] ∧
    4096 < ("\n✅ УСПЕШНО:\n" ++ c7bigLine).length :=
  c7_send_grouped_reports_oversized c7bigLine
    (by
      have h1 : c7bigLine.length = (List.replicate 4200 'a').length := rfl
      rw [List.length_replicate] at h1
      omega)

/-! ### C10: group deletion and display bucketing

`models.py` `delete_group` issues `DELETE FROM groups WHERE id = %s`;
the schema (`_init_db`, lines 38-49) declares
`accounts.group_id REFERENCES groups(id) ON DELETE SET NULL`, so the
delete clears the reference instead of deleting the account.
`app.py` `prepare_accounts_data` buckets accounts for display. -/

/-- `Database.delete_group` together with the schema's
`ON DELETE SET NULL` action. -/
def delete_group (db : DBState) (gid : ℕ) : DBState :=
  { db with
    groups := db.groups.filter (fun g => g.1 ≠ gid)
    accounts := db.accounts.map (fun a =>
      if a.group_id = some gid then { a with group_id := none } else a) }

/-- The display record `prepare_accounts_data` builds per account.  Of
the dict the source assembles, only the fields the bucketing claim
touches are kept (`username`, and `status` derived from the presence of
task rows); the remaining display fields (server, coins, characters,
timestamps) do not interact with grouping. -/
structure DisplayAccount where
  username : String
  status : String
deriving DecidableEq

/-- `Database.get_accounts`: each account with its LEFT-JOINed group
name.  (The SQL `ORDER BY` only orders the display; bucket membership,
which the claim is about, is order-independent, so rows keep table
order.) -/
def get_accounts_rows (db : DBState) : List (AccountRow × Option String) :=
  db.accounts.map (fun a =>
    (a, a.group_id.bind (fun gid =>
      Option.map Prod.snd (db.groups.find? (fun g => g.1 = gid)))))

/-- `accounts_data[group].append(account)`.  Python raises `KeyError` on
a missing key; here the key always exists because every joined group
name was seeded from the groups table and the `None` fallback is the
always-present default bucket, so the missing-key case is dead code (a
no-op). -/
def dictAppend (k : String) (v : DisplayAccount) :
    List (String × List DisplayAccount) → List (String × List DisplayAccount)
  | [] => []
  | (k', l) :: r =>
    if k' = k then (k', l ++ [v]) :: r
    else (k', l) :: dictAppend k v r

/-- One step of the account loop of `prepare_accounts_data`
(app.py lines 56-98). -/
def prepStep (db : DBState) (acc : List (String × List DisplayAccount))
    (row : AccountRow × Option String) :
    List (String × List DisplayAccount) :=
  let group := match row.2 with
    | none => "Общая"
    | some n => if n = "" then "Общая" else n
  let entry : DisplayAccount :=
    { username := row.1.username
      status :=
        if db.tasks.filter (fun t => t.username = row.1.username) ≠ [] then
          "success"
        else "error" }
  dictAppend group entry acc

/-- `app.py` `prepare_accounts_data` (lines 35-105): seed the default
bucket and one bucket per stored group, bucket every account by its
joined group name (falsy name → default), then prune empty non-default
buckets. -/
def prepare_accounts_data (db : DBState) :
    List (String × List DisplayAccount) :=
  let init := db.groups.foldl (fun acc g => dictInsert g.2 [] acc)
    [("Общая", [])]
  let withAccounts := (get_accounts_rows db).foldl (prepStep db) init
  withAccounts.filter (fun p => p.1 = "Общая" ∨ p.2 ≠ [])

/-! #### Dictionary lemmas for the bucketing proof -/

theorem dlookup_dictInsert {α : Type} (k k' : String) (v : α)
    (d : List (String × α)) :
    dlookup k (dictInsert k' v d) =
      if k' = k then some v else dlookup k d := by
  induction d with
  | nil =>
    by_cases h : k' = k <;> simp [dictInsert, dlookup, h]
  | cons p r ih =>
    obtain ⟨pk, pv⟩ := p
    by_cases h1 : pk = k'
    · subst h1
      by_cases h2 : pk = k <;> simp [dictInsert, dlookup, h2, ih]
    · by_cases h2 : pk = k
      · subst h2
        have : ¬(k' = pk) := fun hc => h1 hc.symm
        simp [dictInsert, dlookup, h1, this]
      · simp [dictInsert, dlookup, h1, h2, ih]

theorem dlookup_dictAppend (k k' : String) (v : DisplayAccount)
    (d : List (String × List DisplayAccount)) :
    dlookup k (dictAppend k' v d) =
      if k' = k then (dlookup k d).map (fun l => l ++ [v])
      else dlookup k d := by
  induction d with
  | nil =>
    by_cases h : k' = k <;> simp [dictAppend, dlookup, h]
  | cons p r ih =>
    obtain ⟨pk, pv⟩ := p
    by_cases h1 : pk = k'
    · subst h1
      by_cases h2 : pk = k
      · subst h2
        simp [dictAppend, dlookup]
      · simp [dictAppend, dlookup, h2]
    · by_cases h2 : pk = k
      · subst h2
        have h3 : ¬(k' = pk) := fun hc => h1 hc.symm
        simp [dictAppend, dlookup, h1, h3]
      · simp [dictAppend, dlookup, h1, h2, ih]

theorem dlookup_isSome_foldl_dictInsert (gs : List (ℕ × String))
    (k : String) :
    ∀ d : List (String × List DisplayAccount), (dlookup k d).isSome →
      (dlookup k (gs.foldl (fun acc g => dictInsert g.2 [] acc) d)).isSome := by
  induction gs with
  | nil => intro d h; exact h
  | cons g r ih =>
    intro d h
    rw [List.foldl_cons]
    apply ih
    rw [dlookup_dictInsert]
    split <;> simp_all

/-- Membership in the default bucket survives the rest of the account
loop: later accounts only append. -/
theorem mem_foldl_prepStep (db : DBState)
    (rows : List (AccountRow × Option String)) (k : String)
    (e : DisplayAccount) :
    ∀ (d : List (String × List DisplayAccount)) (l : List DisplayAccount),
      dlookup k d = some l → e ∈ l →
      ∃ l', dlookup k (rows.foldl (prepStep db) d) = some l' ∧ e ∈ l' := by
  induction rows with
  | nil => intro d l hd he; exact ⟨l, hd, he⟩
  | cons row rest ih =>
    intro d l hd he
    rw [List.foldl_cons]
    have hstep : prepStep db d row = dictAppend
        (match row.2 with
          | none => "Общая"
          | some n => if n = "" then "Общая" else n)
        (DisplayAccount.mk row.1.username
          (if db.tasks.filter (fun t => t.username = row.1.username) ≠ [] then
            "success"
          else "error")) d := rfl
    rw [hstep]
    by_cases hk : (match row.2 with
      | none => "Общая"
      | some n => if n = "" then "Общая" else n) = k
    · refine ih _ (l ++ [DisplayAccount.mk row.1.username
        (if db.tasks.filter (fun t => t.username = row.1.username) ≠ [] then
          "success"
        else "error")]) ?_ (List.mem_append_left _ he)
      rw [dlookup_dictAppend, if_pos hk, hd]
      rfl
    · refine ih _ l ?_ he
      rw [dlookup_dictAppend, if_neg hk]
      exact hd

/-- Presence of a bucket survives the account loop. -/
theorem dlookup_isSome_foldl_prepStep (db : DBState)
    (rows : List (AccountRow × Option String)) (k : String) :
    ∀ d : List (String × List DisplayAccount), (dlookup k d).isSome →
      (dlookup k (rows.foldl (prepStep db) d)).isSome := by
  induction rows with
  | nil => intro d h; exact h
  | cons row rest ih =>
    intro d h
    rw [List.foldl_cons]
    apply ih
    unfold prepStep
    rw [dlookup_dictAppend]
    split
    · cases hl : dlookup k d with
      | none => rw [hl] at h; cases h
      | some l => simp [hl]
    · exact h

/-- A first binding that the prune predicate keeps is still found after
pruning. -/
theorem dlookup_filter {p : String × List DisplayAccount → Bool}
    {d : List (String × List DisplayAccount)} {k : String}
    {v : List DisplayAccount}
    (hd : dlookup k d = some v) (hp : p (k, v) = true) :
    dlookup k (d.filter p) = some v := by
  induction d with
  | nil => simp [dlookup] at hd
  | cons q r ih =>
    obtain ⟨qk, qv⟩ := q
    by_cases h1 : qk = k
    · subst h1
      rw [dlookup, if_pos rfl] at hd
      obtain rfl : qv = v := by simpa using hd
      rw [List.filter_cons, if_pos hp, dlookup, if_pos rfl]
    · rw [dlookup, if_neg h1] at hd
      rw [List.filter_cons]
      split
      · rw [dlookup, if_neg h1]
        exact ih hd
      · exact ih hd

/-- Core of the C10 bucketing argument: an account row with a cleared
group reference lands in the default bucket and stays there. -/
theorem c10_core (db' : DBState) (a' : AccountRow)
    (post : List (AccountRow × Option String))
    (d0 : List (String × List DisplayAccount))
    (h0 : (dlookup "Общая" d0).isSome) :
    ∃ bucket, dlookup "Общая"
        ((post.foldl (prepStep db') (prepStep db' d0 (a', none))).filter
          (fun p => p.1 = "Общая" ∨ p.2 ≠ [])) = some bucket ∧
      ∃ e ∈ bucket, DisplayAccount.username e = a'.username := by
  obtain ⟨l0, hl0⟩ := Option.isSome_iff_exists.mp h0
  have hstep : prepStep db' d0 (a', none) = dictAppend "Общая"
      (DisplayAccount.mk a'.username
        (if db'.tasks.filter (fun t => t.username = a'.username) ≠ [] then
          "success"
        else "error")) d0 := rfl
  rw [hstep]
  have hlk : dlookup "Общая" (dictAppend "Общая"
      (DisplayAccount.mk a'.username
        (if db'.tasks.filter (fun t => t.username = a'.username) ≠ [] then
          "success"
        else "error")) d0) = some (l0 ++ [DisplayAccount.mk a'.username
        (if db'.tasks.filter (fun t => t.username = a'.username) ≠ [] then
          "success"
        else "error")]) := by
    rw [dlookup_dictAppend, if_pos rfl, hl0]
    rfl
  obtain ⟨l', hl', he'⟩ := mem_foldl_prepStep db' post "Общая"
    (DisplayAccount.mk a'.username
      (if db'.tasks.filter (fun t => t.username = a'.username) ≠ [] then
        "success"
      else "error")) _ _ hlk (List.mem_append_right _ (List.mem_singleton.mpr rfl))
  exact ⟨l', dlookup_filter hl' (by simp), _, he', rfl⟩

/-- C10.  After deleting a group, every account that was in it still
exists with its group reference cleared and all other columns intact,
and `prepare_accounts_data` buckets it into the default bucket
`Общая`. -/
theorem c10_group_deletion (db : DBState) (gid : ℕ) (a : AccountRow)
    (ha : a ∈ db.accounts) (hg : a.group_id = some gid) :
    ({ a with group_id := none } ∈ (delete_group db gid).accounts) ∧
    (∃ bucket,
      dlookup "Общая" (prepare_accounts_data (delete_group db gid)) =
        some bucket ∧
      ∃ e ∈ bucket, DisplayAccount.username e = a.username) := by
  have hmem : { a with group_id := none } ∈ (delete_group db gid).accounts := by
    unfold delete_group
    dsimp only
    refine List.mem_map.mpr ⟨a, ha, ?_⟩
    rw [if_pos hg]
  refine ⟨hmem, ?_⟩
  obtain ⟨pre, post, hsplit⟩ := List.append_of_mem hmem
  unfold prepare_accounts_data get_accounts_rows
  dsimp only
  rw [hsplit, List.map_append, List.map_cons, List.foldl_append,
    List.foldl_cons]
  have hinit : (dlookup "Общая"
      ((delete_group db gid).groups.foldl
        (fun acc g => dictInsert g.2 [] acc)
        [("Общая", ([] : List DisplayAccount))])).isSome := by
    apply dlookup_isSome_foldl_dictInsert
    simp [dlookup]
  exact c10_core (delete_group db gid) { a with group_id := none } _ _
    (dlookup_isSome_foldl_prepStep _ _ _ _ hinit)

/-- C10 witness database: one group `G` containing one account `w`. -/
def c10db : DBState :=
  { groups := [(1, "G")]
    accounts := [{ freshAccount "w" with group_id := some 1 }]
    tasks := []
    characters := []
    gifts := [] }

/-- Witness for C10: deleting group 1 keeps account `w` (group cleared)
and `prepare_accounts_data` lists it under `Общая`. -/
theorem c10_group_deletion_witness :
    ({ freshAccount "w" with group_id := none } ∈
      (delete_group c10db 1).accounts) ∧
    (∃ bucket,
      dlookup "Общая" (prepare_accounts_data (delete_group c10db 1)) =
        some bucket ∧
      ∃ e ∈ bucket, DisplayAccount.username e = "w") :=
  c10_group_deletion c10db 1 { freshAccount "w" with group_id := some 1 }
    (by decide) rfl

end PW



